import Mathlib

/-!
# Verification of the IPP Excel-cleaner pipeline

A shallow embedding of the data-processing core of `excel_cleaner.py`
(the `Process Data` branch, source lines 30-158) and proofs about it.

The pipeline operates on an in-memory table (a pandas `DataFrame`).  We
model a cell value (`Val`) as an exact rational, a string, a boolean,
IEEE `NaN`, or a signed infinity; pandas float arithmetic on these is
modelled exactly (division by zero produces a signed infinity or `NaN`,
`NaN` compares unequal to everything, reductions skip `NaN`).  A frame
(`DFrame`) is a list of column names together with rows; each row keeps
its pandas index label (rows keep their original label through `dropna`,
`drop_duplicates` and `sort_values`, which is what the `.loc`-based
focus-flag assignment relies on).

`pandas.DataFrame.sort_values` with the default `kind='quicksort'` does
not promise a stable order for tied keys, so the sorting step is a
*parameter* of the pipeline: `process f df` takes any sort routine `f`,
and `SortConforming f` states the contract pandas does guarantee (the
output is a permutation of the input, sorted by the key).  `insort` is a
particular conforming routine used to run the pipeline on concrete
inputs; `badSort` is another conforming routine used to exhibit the
unspecified tie order.
-/

set_option maxRecDepth 4000
set_option maxHeartbeats 1000000

namespace CleanupIPP

/-- A scalar cell value: exact rational number, string, boolean,
IEEE NaN, or a signed infinity (the two non-finite values that pandas
float arithmetic can produce). -/
inductive Val where
  | num (q : ℚ)
  | str (s : String)
  | bool (b : Bool)
  | nan
  | pinf
  | ninf
deriving DecidableEq, Repr

/-- Numeric normalization: Python booleans participate in arithmetic and
comparisons as `1`/`0` (`True == 1` holds in Python). -/
def Val.norm : Val → Val
  | .bool b => .num (if b then 1 else 0)
  | v => v

/-- `True` iff the value is the missing-data marker `NaN` (what
`pandas.dropna` and `skipna` reductions test for). -/
def Val.isNan : Val → Bool
  | .nan => true
  | _ => false

/-- pandas element-wise `==` (source line 42): `NaN` compares unequal to
everything (including `NaN`), numbers compare by value (booleans as
`1`/`0`), strings by contents, values of unrelated kinds are unequal. -/
def valEq (x y : Val) : Bool :=
  match x.norm, y.norm with
  | .nan, _ => false
  | _, .nan => false
  | .num p, .num q => decide (p = q)
  | .str a, .str b => decide (a = b)
  | .pinf, .pinf => true
  | .ninf, .ninf => true
  | _, _ => false

/-- The equality used by `pandas.drop_duplicates` (source line 80): like
`valEq` except that `NaN` *is* considered a duplicate of `NaN`. -/
def dedupEq (x y : Val) : Bool :=
  match x, y with
  | .nan, .nan => true
  | _, _ => valEq x y

/-- IEEE-style addition on cell values (pandas float `+`). -/
def vadd (x y : Val) : Val :=
  match x.norm, y.norm with
  | .num p, .num q => .num (p + q)
  | .num _, .pinf => .pinf
  | .pinf, .num _ => .pinf
  | .pinf, .pinf => .pinf
  | .num _, .ninf => .ninf
  | .ninf, .num _ => .ninf
  | .ninf, .ninf => .ninf
  | _, _ => .nan

/-- `Series.sum()` with the default `skipna=True` (source lines 42, 51):
`NaN` entries are skipped, the empty sum is `0`. -/
def vsum (l : List Val) : Val :=
  l.foldl (fun acc v => if v.isNan then acc else vadd acc v) (.num 0)

/-- IEEE-style division (pandas float `/`, source line 87): dividing a
nonzero number by zero gives a signed infinity, `0 / 0` gives `NaN`. -/
def vdiv (x y : Val) : Val :=
  match x.norm, y.norm with
  | .num p, .num q =>
      if q = 0 then (if 0 < p then .pinf else if p < 0 then .ninf else .nan)
      else .num (p / q)
  | .num _, .pinf => .num 0
  | .num _, .ninf => .num 0
  | .pinf, .num q => if q < 0 then .ninf else .pinf
  | .ninf, .num q => if q < 0 then .pinf else .ninf
  | _, _ => .nan

/-- Multiplication by a rational constant (the `* 100` of source line 87). -/
def vmul (x : Val) (c : ℚ) : Val :=
  match x.norm with
  | .num p => .num (p * c)
  | .pinf => if 0 < c then .pinf else if c < 0 then .ninf else .nan
  | .ninf => if 0 < c then .ninf else if c < 0 then .pinf else .nan
  | _ => .nan

/-- pandas `>= c` comparison (source line 100): `NaN >= c` is `False`. -/
def vge (x : Val) (c : ℚ) : Bool :=
  match x.norm with
  | .num p => decide (c ≤ p)
  | .pinf => true
  | _ => false

/-- pandas `<= c` comparison (source line 104): `NaN <= c` is `False`. -/
def vle (x : Val) (c : ℚ) : Bool :=
  match x.norm with
  | .num p => decide (p ≤ c)
  | .ninf => true
  | _ => false

/-- `Series.cumsum()` with the default `skipna=True` (source line 103):
a `NaN` entry stays `NaN` in the result and is skipped by the running
sum. -/
def cumsumGo (acc : Val) : List Val → List Val
  | [] => []
  | v :: rest =>
      if v.isNan then .nan :: cumsumGo acc rest
      else vadd acc v :: cumsumGo (vadd acc v) rest

def cumsumVals (l : List Val) : List Val := cumsumGo (.num 0) l

/-- Sort-position key for `sort_values(ascending=False)`: smaller key =
earlier in the output.  `+inf` first, then finite numbers in descending
order, then `-inf`, with `NaN` (the default `na_position='last'`) at the
end. -/
def sortKey (x : Val) : ℕ × ℚ :=
  match x.norm with
  | .pinf => (0, 0)
  | .num p => (1, -p)
  | .ninf => (2, 0)
  | _ => (3, 0)

/-- `x` may be placed before `y` by the descending sort. -/
def sortLE (x y : Val) : Bool :=
  decide ((sortKey x).1 < (sortKey y).1 ∨
    ((sortKey x).1 = (sortKey y).1 ∧ (sortKey x).2 ≤ (sortKey y).2))

/-- A table row: the pandas index label together with the cell values,
positionally aligned with the frame's column list. -/
structure Row where
  label : ℕ
  cells : List Val
deriving DecidableEq, Repr

/-- A pandas DataFrame: ordered column names and rows. -/
structure DFrame where
  cols : List String
  rows : List Row
deriving DecidableEq, Repr

/-- Cell of a row at a column position. -/
def getCell (r : Row) (i : ℕ) : Val := r.cells.getD i .nan

def setCellAt (r : Row) (i : ℕ) (v : Val) : Row := ⟨r.label, r.cells.set i v⟩

/-- First position of a name in a column list (a name that is absent
maps to the list's length).  pandas label lookup; column names are
assumed unique, as a frame with duplicate labels is an input error. -/
def colPos : List String → String → ℕ
  | [], _ => 0
  | c :: cs, name => if c = name then 0 else colPos cs name + 1

/-- Position of a column name in a frame. -/
def colIdx (df : DFrame) (name : String) : ℕ := colPos df.cols name

/-- The values of a named column, in row order. -/
def colVals (df : DFrame) (name : String) : List Val :=
  df.rows.map (fun r => getCell r (colIdx df name))

/-- `df[name] = vals` (source lines 41, 48, 87, 103, 107): overwrites the
column if the name exists, otherwise appends a new rightmost column. -/
def setCol (df : DFrame) (name : String) (vals : List Val) : DFrame :=
  if name ∈ df.cols then
    { df with rows := (df.rows.zip vals).map (fun p => ⟨p.1.label, p.1.cells.set (colIdx df name) p.2⟩) }
  else
    { cols := df.cols ++ [name],
      rows := (df.rows.zip vals).map (fun p => ⟨p.1.label, p.1.cells ++ [p.2]⟩) }

/-- Keep the cells whose column name passes `p` (positional walk over the
column list). -/
def filterCols (p : String → Bool) : List String → List Val → List Val
  | c :: cs, v :: vs => if p c then v :: filterCols p cs vs else filterCols p cs vs
  | _, _ => []

/-- `df.drop(columns=names)` (source lines 73, 76): removes every column
whose name is in `names`. -/
def dropColsByName (df : DFrame) (names : List String) : DFrame :=
  { cols := df.cols.filter (fun c => !decide (c ∈ names)),
    rows := df.rows.map (fun r => ⟨r.label, filterCols (fun c => !decide (c ∈ names)) df.cols r.cells⟩) }

/-- The SUMIF of source lines 41-44 for one row: the quantity column
summed over all rows whose SKU cell compares `==`-equal to this row's
SKU cell. -/
def sumifRow (df : DFrame) (skuName qtyName : String) (r : Row) : Val :=
  vsum ((df.rows.filter
      (fun x => valEq (getCell x (colIdx df skuName)) (getCell r (colIdx df skuName)))).map
    (fun x => getCell x (colIdx df qtyName)))

def sumifVals (df : DFrame) (skuName qtyName : String) : List Val :=
  df.rows.map (sumifRow df skuName qtyName)

/-- `drop_duplicates(subset=[key])` (source line 80): keep the first row
seen for each `dedupEq`-class of key values.  `seen` accumulates the key
values of the rows already kept (initially empty). -/
def dedupFirst (key : Row → Val) : List Val → List Row → List Row
  | _, [] => []
  | seen, r :: l =>
      if seen.any (fun k => dedupEq k (key r)) then dedupFirst key seen l
      else r :: dedupFirst key (key r :: seen) l

/-- The ordering relation on rows induced by a sort key. -/
def rowSortRel (key : Row → Val) (a b : Row) : Prop := sortLE (key a) (key b) = true

instance (key : Row → Val) : DecidableRel (rowSortRel key) := fun a b => by
  unfold rowSortRel; infer_instance

/-- A stable conforming implementation of the descending sort (numpy's
introsort actually runs a plain insertion sort on small inputs). -/
def insort (key : Row → Val) (l : List Row) : List Row :=
  List.insertionSort (rowSortRel key) l

/-- Another conforming implementation: insertion sort of the reversed
list.  It produces a correctly sorted permutation but reverses the
relative order of tied keys. -/
def badSort (key : Row → Val) (l : List Row) : List Row :=
  List.insertionSort (rowSortRel key) l.reverse

/-- The contract pandas guarantees for
`sort_values(by=key, ascending=False)` with the default
`kind='quicksort'`: the output is a permutation of the rows, sorted by
the key; the relative order of tied keys is *not* specified. -/
def SortConforming (f : (Row → Val) → List Row → List Row) : Prop :=
  ∀ key l, (f key l).Perm l ∧ (f key l).Pairwise (rowSortRel key)

def tqpsName : String := "Total_Quantity_Per_SKU"
def tqvName : String := "Total_Quantity_Values"
def velName : String := "SKU_Velocity"
def cumName : String := "Cumulative_Percentage"
def focusName : String := "Focus_SKU"

/-- The five column names created by the pipeline itself.  Input frames
are assumed not to use them (they would be silently overwritten). -/
def derivedNames : List String := [tqpsName, tqvName, velName, cumName, focusName]

def gColWarning : String := "Column G not found. SKU Velocity calculation skipped."

def shortColsError : String := "Error processing the file: single positional indexer is out-of-bounds"

/-- `sku_column = processed_df.columns[0]` (source line 37). -/
def pSku (df0 : DFrame) : String := df0.cols.getD 0 ""

/-- `quantity_column = processed_df.columns[4]` (source line 38). -/
def pQty (df0 : DFrame) : String := df0.cols.getD 4 ""

/-- Step 1 (source lines 41-44): add the per-SKU SUMIF column. -/
def pDf1 (df0 : DFrame) : DFrame :=
  setCol df0 tqpsName (sumifVals df0 (pSku df0) (pQty df0))

/-- Step 2 (source line 48): copy the totals as values only. -/
def pDf2 (df0 : DFrame) : DFrame :=
  setCol (pDf1 df0) tqvName (colVals (pDf1 df0) tqpsName)

/-- Step 3 (source line 51): total quantity, summed over *all* rows of
the not-yet-cleaned frame. -/
def pTotal (df0 : DFrame) : Val := vsum (colVals (pDf2 df0) (pQty df0))

/-- Step 4 (source line 58): `dropna(subset=[sku_column])`. -/
def pDf4 (df0 : DFrame) : DFrame :=
  { pDf2 df0 with
    rows := (pDf2 df0).rows.filter
      (fun r => !(getCell r (colIdx (pDf2 df0) (pSku df0))).isNan) }

/-- Step 5, column selection (source lines 63-69): both appends are
guarded by the same `len(columns) > 4` test. -/
def pColsToDrop (df0 : DFrame) : List String :=
  (if 4 < (pDf4 df0).cols.length then [(pDf4 df0).cols.getD 3 ""] else []) ++
  (if 4 < (pDf4 df0).cols.length then [(pDf4 df0).cols.getD 4 ""] else [])

/-- Step 5 (source lines 72-76): drop columns D and E if identified,
then the intermediate `Total_Quantity_Per_SKU` column. -/
def pDf5 (df0 : DFrame) : DFrame :=
  dropColsByName
    (if (pColsToDrop df0).isEmpty then pDf4 df0 else dropColsByName (pDf4 df0) (pColsToDrop df0))
    [tqpsName]

/-- Step 6 (source line 80): `drop_duplicates(subset=[sku_column])`. -/
def pDf6 (df0 : DFrame) : DFrame :=
  { pDf5 df0 with
    rows := dedupFirst (fun r => getCell r (colIdx (pDf5 df0) (pSku df0))) [] (pDf5 df0).rows }

/-- Step 7 (source lines 85-89): if the current frame still has more
than 6 columns, `column_g_name = processed_df.columns[6]` and the
velocity column is `df[column_g_name] / total_quantity * 100`;
otherwise the stage is skipped with a warning. -/
def pDf7 (df0 : DFrame) : DFrame × List String :=
  if 6 < (pDf6 df0).cols.length then
    (setCol (pDf6 df0) velName
      ((pDf6 df0).rows.map
        (fun r => vmul (vdiv (getCell r (colIdx (pDf6 df0) ((pDf6 df0).cols.getD 6 ""))) (pTotal df0)) 100)),
     [])
  else (pDf6 df0, [gColWarning])

/-- Step 8 (source lines 93-94): sort by velocity, descending, if the
velocity column exists; `f` is the sort routine (see `SortConforming`). -/
def pDf8 (f : (Row → Val) → List Row → List Row) (df0 : DFrame) : DFrame :=
  if velName ∈ (pDf7 df0).1.cols then
    { (pDf7 df0).1 with
      rows := f (fun r => getCell r (colIdx (pDf7 df0).1 velName)) (pDf7 df0).1.rows }
  else (pDf7 df0).1

/-- Step 9 (source lines 98-109): the two focus criteria.  The
`>= 200`-unit row labels are collected *before* the cumulative column is
added, the `<= 80` cumulative labels after; `Focus_SKU` is initialized
to `False` and then set to `True` at both label sets via `.loc`. -/
def focusStage (df : DFrame) : DFrame :=
  let highLabels := (df.rows.filter (fun r => vge (getCell r (colIdx df tqvName)) 200)).map Row.label
  let dfc := setCol df cumName (cumsumVals (df.rows.map (fun r => getCell r (colIdx df velName))))
  let volLabels := (dfc.rows.filter (fun r => vle (getCell r (colIdx dfc cumName)) 80)).map Row.label
  let dff := setCol dfc focusName (dfc.rows.map (fun _ => Val.bool false))
  { dff with
    rows := dff.rows.map (fun r =>
      if r.label ∈ highLabels ∨ r.label ∈ volLabels then
        setCellAt r (colIdx dff focusName) (.bool true)
      else r) }

def pDf9 (f : (Row → Val) → List Row → List Row) (df0 : DFrame) : DFrame :=
  if tqvName ∈ (pDf8 f df0).cols ∧ velName ∈ (pDf8 f df0).cols then
    focusStage (pDf8 f df0)
  else pDf8 f df0

/-- The result of a successful run: the processed frame, the stored
total quantity (source line 51), and the warnings issued. -/
structure PResult where
  df : DFrame
  total : Val
  warnings : List String
deriving DecidableEq, Repr

/-- The whole `Process Data` handler (source lines 30-158).  Resolving
`columns[4]` (line 38) on a frame with fewer than 5 columns raises
`IndexError`, which the surrounding `try`/`except` (line 157) turns into
a terminal `st.error` with no output table: that is the `.error` case. -/
def process (f : (Row → Val) → List Row → List Row) (df0 : DFrame) : Except String PResult :=
  if df0.cols.length < 5 then .error shortColsError
  else .ok ⟨pDf9 f df0, pTotal df0, (pDf7 df0).2⟩

def resFrame : Except String PResult → DFrame
  | .ok r => r.df
  | .error _ => ⟨[], []⟩

def resTotal : Except String PResult → Val
  | .ok r => r.total
  | .error _ => .nan

def resWarnings : Except String PResult → List String
  | .ok r => r.warnings
  | .error _ => []

/-- Well-formed input frame: unique column names, none of the pipeline's
derived names among them, every row aligned with the columns, and unique
(pandas index) labels. -/
def WF (df : DFrame) : Prop :=
  df.cols.Nodup ∧ (∀ c ∈ df.cols, c ∉ derivedNames) ∧
    (∀ r ∈ df.rows, r.cells.length = df.cols.length) ∧ (df.rows.map Row.label).Nodup

/-! ## Concrete input tables used for witnesses and counterexamples -/

/-- A 9-column table.  Position 0 is the SKU, position 4 the quantity,
position 6 holds `5` resp. `7`, position 8 holds `20` resp. `10`.
Total quantity is `40`. -/
def ex9 : DFrame :=
  ⟨["a", "b", "c", "d", "e", "f", "g", "h", "i"],
   [⟨0, [.num 1, .num 0, .num 0, .num 0, .num 10, .num 0, .num 5, .num 0, .num 20]⟩,
    ⟨1, [.num 2, .num 0, .num 0, .num 0, .num 30, .num 0, .num 7, .num 0, .num 10]⟩]⟩

/-- A 7-column table (enough columns for every stage up to velocity). -/
def ex7 : DFrame :=
  ⟨["a", "b", "c", "d", "e", "f", "g"],
   [⟨0, [.num 1, .num 0, .num 0, .num 0, .num 10, .num 0, .num 5]⟩,
    ⟨1, [.num 2, .num 0, .num 0, .num 0, .num 30, .num 0, .num 7]⟩]⟩

/-- A 3-column table: the quantity column (position 4) cannot be
resolved. -/
def ex3 : DFrame :=
  ⟨["a", "b", "c"], [⟨0, [.num 1, .num 2, .num 3]⟩]⟩

/-- A 9-column table whose quantity column is all zeros, so the stored
total quantity is `0`; position 8 (the column actually used for
velocity) is positive. -/
def exZero : DFrame :=
  ⟨["a", "b", "c", "d", "e", "f", "g", "h", "i"],
   [⟨0, [.num 1, .num 0, .num 0, .num 0, .num 0, .num 0, .num 5, .num 0, .num 5]⟩,
    ⟨1, [.num 2, .num 0, .num 0, .num 0, .num 0, .num 0, .num 7, .num 0, .num 3]⟩]⟩

/-- A 9-column table with two distinct SKUs that end up with *equal*
velocities (both reference cells are `10`). -/
def exTie : DFrame :=
  ⟨["a", "b", "c", "d", "e", "f", "g", "h", "i"],
   [⟨0, [.num 1, .num 0, .num 0, .num 0, .num 20, .num 0, .num 4, .num 0, .num 10]⟩,
    ⟨1, [.num 2, .num 0, .num 0, .num 0, .num 20, .num 0, .num 6, .num 0, .num 10]⟩]⟩

/-- A 9-column table with a `NaN` SKU in the middle row and a duplicate
SKU in the last row. -/
def exNan : DFrame :=
  ⟨["a", "b", "c", "d", "e", "f", "g", "h", "i"],
   [⟨0, [.num 1, .num 0, .num 0, .num 0, .num 10, .num 0, .num 5, .num 0, .num 20]⟩,
    ⟨1, [.nan, .num 0, .num 0, .num 0, .num 7, .num 0, .num 6, .num 0, .num 30]⟩,
    ⟨2, [.num 1, .num 0, .num 0, .num 0, .num 5, .num 0, .num 8, .num 0, .num 40]⟩]⟩

/-! ## Basic lemmas about values and value operations -/

theorem sortLE_total (x y : Val) : sortLE x y = true ∨ sortLE y x = true := by
  simp only [sortLE, decide_eq_true_eq]
  rcases Nat.lt_trichotomy (sortKey x).1 (sortKey y).1 with h | h | h
  · exact Or.inl (Or.inl h)
  · rcases le_total (sortKey x).2 (sortKey y).2 with h2 | h2
    · exact Or.inl (Or.inr ⟨h, h2⟩)
    · exact Or.inr (Or.inr ⟨h.symm, h2⟩)
  · exact Or.inr (Or.inl h)

theorem sortLE_trans {x y z : Val} (h1 : sortLE x y = true) (h2 : sortLE y z = true) :
    sortLE x z = true := by
  simp only [sortLE, decide_eq_true_eq] at *
  rcases h1 with h1 | ⟨h1e, h1q⟩ <;> rcases h2 with h2 | ⟨h2e, h2q⟩
  · exact Or.inl (h1.trans h2)
  · exact Or.inl (h2e ▸ h1)
  · exact Or.inl (h1e.symm ▸ h2)
  · exact Or.inr ⟨h1e.trans h2e, h1q.trans h2q⟩

theorem insort_conforming : SortConforming insort := by
  intro key l
  haveI : IsTotal Row (rowSortRel key) := ⟨fun a b => sortLE_total (key a) (key b)⟩
  haveI : IsTrans Row (rowSortRel key) := ⟨fun _ _ _ h1 h2 => sortLE_trans h1 h2⟩
  exact ⟨List.perm_insertionSort _ l, List.sorted_insertionSort _ l⟩

theorem badSort_conforming : SortConforming badSort := by
  intro key l
  haveI : IsTotal Row (rowSortRel key) := ⟨fun a b => sortLE_total (key a) (key b)⟩
  haveI : IsTrans Row (rowSortRel key) := ⟨fun _ _ _ h1 h2 => sortLE_trans h1 h2⟩
  exact ⟨(List.perm_insertionSort _ _).trans l.reverse_perm, List.sorted_insertionSort _ _⟩

theorem dedupEq_refl (x : Val) : dedupEq x x = true := by
  cases x <;> simp [dedupEq, valEq, Val.norm]

theorem dedupEq_eq_true_symm {x y : Val} (h : dedupEq x y = true) : dedupEq y x = true := by
  cases x <;> cases y <;> simp_all [dedupEq, valEq, Val.norm]

theorem dedupEq_trans {x y z : Val} (h1 : dedupEq x y = true) (h2 : dedupEq y z = true) :
    dedupEq x z = true := by
  cases x <;> cases y <;> cases z <;> simp_all [dedupEq, valEq, Val.norm]

theorem dedupEq_false_symm {x y : Val} (h : dedupEq x y = false) : dedupEq y x = false := by
  cases hyx : dedupEq y x
  · rfl
  · exact absurd (dedupEq_eq_true_symm hyx) (by simp [h])

theorem valEq_nan_left (y : Val) : valEq .nan y = false := by
  cases y <;> simp [valEq, Val.norm]

/-! ## Lemmas about `dedupFirst` -/

theorem dedupFirst_sublist (key : Row → Val) :
    ∀ (seen : List Val) (l : List Row), List.Sublist (dedupFirst key seen l) l := by
  intro seen l
  induction l generalizing seen with
  | nil => exact List.Sublist.refl _
  | cons r l ih =>
    rw [dedupFirst]
    by_cases h : seen.any (fun k => dedupEq k (key r)) = true
    · rw [if_pos h]
      exact (ih seen).cons r
    · rw [if_neg h]
      exact (ih (key r :: seen)).cons₂ r

/-- Every row kept by `dedupFirst` has a key that is not a duplicate of
any key in the starting `seen` set. -/
theorem dedupFirst_not_seen (key : Row → Val) :
    ∀ (seen : List Val) (l : List Row), ∀ b ∈ dedupFirst key seen l,
      ∀ k ∈ seen, dedupEq k (key b) = false := by
  intro seen l
  induction l generalizing seen with
  | nil => intro b hb; cases hb
  | cons r l ih =>
    intro b hb k hk
    rw [dedupFirst] at hb
    by_cases h : seen.any (fun k => dedupEq k (key r)) = true
    · rw [if_pos h] at hb
      exact ih seen b hb k hk
    · rw [if_neg h] at hb
      rcases List.mem_cons.mp hb with rfl | hb
      · have := List.any_eq_false.mp (Bool.not_eq_true _ ▸ h) k hk
        simpa using this
      · exact ih (key r :: seen) b hb k (List.mem_cons_of_mem _ hk)

theorem dedupFirst_pairwise (key : Row → Val) :
    ∀ (seen : List Val) (l : List Row),
      (dedupFirst key seen l).Pairwise (fun a b => dedupEq (key a) (key b) = false) := by
  intro seen l
  induction l generalizing seen with
  | nil => exact List.Pairwise.nil
  | cons r l ih =>
    rw [dedupFirst]
    by_cases h : seen.any (fun k => dedupEq k (key r)) = true
    · rw [if_pos h]
      exact ih seen
    · rw [if_neg h]
      refine List.Pairwise.cons (fun b hb => ?_) (ih (key r :: seen))
      exact dedupFirst_not_seen key _ l b hb (key r) (List.mem_cons_self _ _)

theorem dedupFirst_find? (key : Row → Val) :
    ∀ (seen : List Val) (l : List Row), ∀ row ∈ dedupFirst key seen l,
      l.find? (fun x => dedupEq (key x) (key row)) = some row := by
  intro seen l
  induction l generalizing seen with
  | nil => intro row h; cases h
  | cons r l ih =>
    intro row hrow
    rw [dedupFirst] at hrow
    by_cases h : seen.any (fun k => dedupEq k (key r)) = true
    · rw [if_pos h] at hrow
      obtain ⟨k, hk, hkr⟩ := List.any_eq_true.mp h
      have hkrow : dedupEq k (key row) = false :=
        dedupFirst_not_seen key seen l row hrow k hk
      have hne : dedupEq (key r) (key row) = false := by
        cases hc : dedupEq (key r) (key row)
        · rfl
        · exact absurd (dedupEq_trans (by simpa using hkr) hc) (by simp [hkrow])
      rw [List.find?_cons_of_neg _ (by simp [hne])]
      exact ih seen row hrow
    · rw [if_neg h] at hrow
      rcases List.mem_cons.mp hrow with rfl | hrow
      · exact List.find?_cons_of_pos _ (dedupEq_refl (key row))
      · have hne : dedupEq (key r) (key row) = false :=
          dedupFirst_not_seen key _ l row hrow (key r) (List.mem_cons_self _ _)
        rw [List.find?_cons_of_neg _ (by simp [hne])]
        exact ih (key r :: seen) row hrow

/-! ## Structural helper lemmas -/

theorem getD_mem {α} {l : List α} {n : ℕ} (h : n < l.length) (d : α) : l.getD n d ∈ l := by
  induction l generalizing n with
  | nil => simp at h
  | cons a l ih =>
    cases n with
    | zero => simp [List.getD_cons_zero]
    | succ n =>
      simp only [List.getD_cons_succ]
      exact List.mem_cons_of_mem _ (ih (by simpa using h))

theorem getD_append_len {α} (l : List α) (v d : α) : (l ++ [v]).getD l.length d = v := by
  rw [List.getD_append_right _ _ _ _ (le_refl _)]
  simp

theorem colPos_append_of_mem {cs : List String} {name : String} (h : name ∈ cs) (t : List String) :
    colPos (cs ++ t) name = colPos cs name := by
  induction cs with
  | nil => cases h
  | cons c cs ih =>
    simp only [List.cons_append, colPos]
    by_cases hc : c = name
    · simp [hc]
    · have hm : name ∈ cs := by
        rcases List.mem_cons.mp h with h' | h'
        · exact absurd h'.symm hc
        · exact h'
      simp [hc, ih hm]

theorem colPos_append_absent {cs : List String} {name : String} (h : name ∉ cs) (t : List String) :
    colPos (cs ++ t) name = cs.length + colPos t name := by
  induction cs with
  | nil => simp
  | cons c cs ih =>
    have hc : c ≠ name := fun hcn => h (hcn ▸ List.mem_cons_self c cs)
    have hm : name ∉ cs := fun hmem => h (List.mem_cons_of_mem _ hmem)
    rw [List.cons_append]
    show (if c = name then 0 else colPos (cs ++ t) name + 1) = (c :: cs).length + colPos t name
    rw [if_neg hc, ih hm, List.length_cons]
    omega

theorem colPos_getD {cs : List String} (h : cs.Nodup) :
    ∀ {i : ℕ}, i < cs.length → ∀ d, colPos cs (cs.getD i d) = i := by
  induction cs with
  | nil => intro i hi; simp at hi
  | cons c cs ih =>
    intro i hi d
    cases i with
    | zero => simp [colPos, List.getD_cons_zero]
    | succ n =>
      have hn : n < cs.length := by simpa using hi
      have hcne : c ≠ cs.getD n d := by
        intro hc
        exact (List.nodup_cons.mp h).1 (hc ▸ getD_mem hn d)
      simp only [List.getD_cons_succ, colPos, if_neg hcne,
        ih (List.nodup_cons.mp h).2 hn d]

theorem zip_map_self {α β} (l : List α) (g : α → β) :
    l.zip (l.map g) = l.map (fun a => (a, g a)) := by
  induction l with
  | nil => rfl
  | cons a l ih => simp [ih]

theorem setCol_new (df : DFrame) (name : String) (g : Row → Val) (h : name ∉ df.cols) :
    setCol df name (df.rows.map g) =
      ⟨df.cols ++ [name], df.rows.map (fun r => ⟨r.label, r.cells ++ [g r]⟩)⟩ := by
  simp only [setCol, if_neg h, zip_map_self, List.map_map]
  rfl

theorem filterCols_append (p : String → Bool) :
    ∀ (cs : List String) (vs : List Val), cs.length = vs.length →
      ∀ (cs' : List String) (vs' : List Val),
        filterCols p (cs ++ cs') (vs ++ vs') = filterCols p cs vs ++ filterCols p cs' vs' := by
  intro cs
  induction cs with
  | nil =>
    intro vs h cs' vs'
    have : vs = [] := List.length_eq_zero.mp h.symm
    subst this
    rfl
  | cons c cs ih =>
    intro vs h cs' vs'
    cases vs with
    | nil => simp at h
    | cons v vs =>
      simp only [List.cons_append, filterCols]
      by_cases hp : p c = true
      · simp [hp, ih vs (by simpa using h) cs' vs']
      · simp [hp, ih vs (by simpa using h) cs' vs']

theorem filterCols_true (p : String → Bool) :
    ∀ (cs : List String) (vs : List Val), cs.length = vs.length →
      (∀ c ∈ cs, p c = true) → filterCols p cs vs = vs := by
  intro cs
  induction cs with
  | nil =>
    intro vs h _
    have : vs = [] := List.length_eq_zero.mp h.symm
    subst this
    rfl
  | cons c cs ih =>
    intro vs h hall
    cases vs with
    | nil => simp at h
    | cons v vs =>
      simp only [filterCols, hall c (List.mem_cons_self c cs), if_true]
      rw [ih vs (by simpa using h) (fun x hx => hall x (List.mem_cons_of_mem _ hx))]

theorem filterCols_length (p : String → Bool) :
    ∀ (cs : List String) (vs : List Val), cs.length = vs.length →
      (filterCols p cs vs).length = (cs.filter p).length := by
  intro cs
  induction cs with
  | nil => intro vs _; rfl
  | cons c cs ih =>
    intro vs h
    cases vs with
    | nil => simp at h
    | cons v vs =>
      simp only [filterCols, List.filter_cons]
      by_cases hp : p c = true
      · simp [hp, ih vs (by simpa using h)]
      · simp [hp, ih vs (by simpa using h)]

theorem cumsumGo_length (acc : Val) : ∀ l, (cumsumGo acc l).length = l.length := by
  intro l
  induction l generalizing acc with
  | nil => rfl
  | cons v rest ih =>
    simp only [cumsumGo]
    by_cases hv : v.isNan = true
    · simp [hv, ih]
    · simp [hv, ih]

/-! ## Shape of the pipeline stages on well-formed input

Throughout, `df0` is the input frame, `hder` says the input does not use
the pipeline's derived column names, `hnd` that column names are unique,
`hlen` that rows are aligned with the columns. -/

theorem name_not_mem_of_derived {df0 : DFrame} (hder : ∀ c ∈ df0.cols, c ∉ derivedNames)
    {name : String} (h : name ∈ derivedNames) : name ∉ df0.cols :=
  fun hc => hder _ hc h

/-- Abbreviated SUMIF value of a row (step 1). -/
theorem pDf1_eq {df0 : DFrame} (hder : ∀ c ∈ df0.cols, c ∉ derivedNames) :
    pDf1 df0 = ⟨df0.cols ++ [tqpsName],
      df0.rows.map (fun r => ⟨r.label, r.cells ++ [sumifRow df0 (pSku df0) (pQty df0) r]⟩)⟩ := by
  rw [pDf1, sumifVals]
  exact setCol_new _ _ _ (name_not_mem_of_derived hder (by simp [derivedNames]))

theorem pDf2_eq {df0 : DFrame} (hder : ∀ c ∈ df0.cols, c ∉ derivedNames)
    (hlen : ∀ r ∈ df0.rows, r.cells.length = df0.cols.length) :
    pDf2 df0 = ⟨df0.cols ++ [tqpsName, tqvName],
      df0.rows.map (fun r => ⟨r.label,
        r.cells ++ [sumifRow df0 (pSku df0) (pQty df0) r,
          sumifRow df0 (pSku df0) (pQty df0) r]⟩)⟩ := by
  have htqps : tqpsName ∉ df0.cols :=
    name_not_mem_of_derived hder (by simp [derivedNames])
  have htqv : tqvName ∉ df0.cols ++ [tqpsName] := by
    intro h
    rcases List.mem_append.mp h with h | h
    · exact name_not_mem_of_derived hder (by simp [derivedNames]) h
    · have : tqvName = tqpsName := by simpa using h
      exact absurd this (by decide)
  rw [pDf2, pDf1_eq hder]
  simp only [colVals, colIdx]
  rw [setCol_new _ _ _ htqv]
  refine DFrame.mk.injEq .. |>.mpr ⟨by simp, ?_⟩
  rw [List.map_map]
  refine List.map_congr_left (fun r hr => ?_)
  simp only [Function.comp]
  have hidx : colPos (df0.cols ++ [tqpsName]) tqpsName = df0.cols.length := by
    rw [colPos_append_absent htqps]
    simp [colPos]
  rw [hidx]
  have hcell : getCell ⟨r.label, r.cells ++ [sumifRow df0 (pSku df0) (pQty df0) r]⟩
      df0.cols.length = sumifRow df0 (pSku df0) (pQty df0) r := by
    rw [getCell]
    show (r.cells ++ [sumifRow df0 (pSku df0) (pQty df0) r]).getD df0.cols.length .nan = _
    rw [← hlen r hr]
    exact getD_append_len _ _ _
  rw [hcell, List.append_assoc]
  rfl

/-- Step 3 stores the sum of the *original* position-4 quantity column,
over all rows (no row has been dropped yet). -/
theorem pTotal_eq {df0 : DFrame} (hnd : df0.cols.Nodup)
    (hder : ∀ c ∈ df0.cols, c ∉ derivedNames)
    (hlen : ∀ r ∈ df0.rows, r.cells.length = df0.cols.length)
    (hn : 5 ≤ df0.cols.length) :
    pTotal df0 = vsum (df0.rows.map (fun r => getCell r 4)) := by
  rw [pTotal, pDf2_eq hder hlen]
  simp only [colVals, colIdx]
  have hq4 : 4 < df0.cols.length := by omega
  have hidx : colPos (df0.cols ++ [tqpsName, tqvName]) (pQty df0) = 4 := by
    rw [pQty, colPos_append_of_mem (getD_mem hq4 _), colPos_getD hnd hq4]
  rw [hidx, List.map_map]
  congr 1
  refine List.map_congr_left fun r hr => ?_
  simp only [Function.comp]
  rw [getCell, getCell]
  exact List.getD_append _ _ _ _ (by rw [hlen r hr]; omega)

/-- Step 4 keeps exactly the rows whose position-0 SKU cell is not
`NaN`. -/
theorem pDf4_eq {df0 : DFrame} (hnd : df0.cols.Nodup)
    (hder : ∀ c ∈ df0.cols, c ∉ derivedNames)
    (hlen : ∀ r ∈ df0.rows, r.cells.length = df0.cols.length)
    (hn : 5 ≤ df0.cols.length) :
    pDf4 df0 = ⟨df0.cols ++ [tqpsName, tqvName],
      (df0.rows.filter (fun r => !(getCell r 0).isNan)).map
        (fun r => ⟨r.label, r.cells ++ [sumifRow df0 (pSku df0) (pQty df0) r,
          sumifRow df0 (pSku df0) (pQty df0) r]⟩)⟩ := by
  rw [pDf4, pDf2_eq hder hlen]
  simp only [colIdx]
  have h0 : 0 < df0.cols.length := by omega
  have hidx : colPos (df0.cols ++ [tqpsName, tqvName]) (pSku df0) = 0 := by
    rw [pSku, colPos_append_of_mem (getD_mem h0 _), colPos_getD hnd h0]
  rw [hidx]
  refine DFrame.mk.injEq .. |>.mpr ⟨rfl, ?_⟩
  rw [List.filter_map]
  congr 1
  refine List.filter_congr fun r hr => ?_
  simp only [Function.comp]
  have hc : getCell ⟨r.label, r.cells ++ [sumifRow df0 (pSku df0) (pQty df0) r,
      sumifRow df0 (pSku df0) (pQty df0) r]⟩ 0 = getCell r 0 := by
    rw [getCell, getCell]
    exact List.getD_append _ _ _ _ (by rw [hlen r hr]; omega)
  rw [hc]

/-- The list of columns dropped at step 5 is exactly the original
position-3 and position-4 names. -/
theorem pColsToDrop_eq {df0 : DFrame} (hnd : df0.cols.Nodup)
    (hder : ∀ c ∈ df0.cols, c ∉ derivedNames)
    (hlen : ∀ r ∈ df0.rows, r.cells.length = df0.cols.length)
    (hn : 5 ≤ df0.cols.length) :
    pColsToDrop df0 = [df0.cols.getD 3 "", df0.cols.getD 4 ""] := by
  rw [pColsToDrop, pDf4_eq hnd hder hlen hn]
  simp only [List.length_append]
  rw [if_pos (by simp; omega), if_pos (by simp; omega)]
  rw [List.getD_append _ _ _ _ (by omega), List.getD_append _ _ _ _ (by omega)]
  rfl

/-- Shape of the frame after step 5: the original columns minus
positions 3 and 4, plus the `Total_Quantity_Values` copy; rows are the
non-`NaN`-SKU rows with correspondingly filtered cells. -/
theorem pDf5_eq {df0 : DFrame} (hnd : df0.cols.Nodup)
    (hder : ∀ c ∈ df0.cols, c ∉ derivedNames)
    (hlen : ∀ r ∈ df0.rows, r.cells.length = df0.cols.length)
    (hn : 5 ≤ df0.cols.length) :
    pDf5 df0 = ⟨(df0.cols.filter (fun c => !decide (c ∈ pColsToDrop df0))) ++ [tqvName],
      (df0.rows.filter (fun r => !(getCell r 0).isNan)).map
        (fun r => ⟨r.label,
          filterCols (fun c => !decide (c ∈ pColsToDrop df0)) df0.cols r.cells ++
            [sumifRow df0 (pSku df0) (pQty df0) r]⟩)⟩ := by
  have hdrop := pColsToDrop_eq hnd hder hlen hn
  have hc3 : df0.cols.getD 3 "" ∈ df0.cols := getD_mem (by omega) _
  have hc4 : df0.cols.getD 4 "" ∈ df0.cols := getD_mem (by omega) _
  have htqps : tqpsName ∉ df0.cols :=
    name_not_mem_of_derived hder (by simp [derivedNames])
  have htqv : tqvName ∉ df0.cols :=
    name_not_mem_of_derived hder (by simp [derivedNames])
  have hP1tqps : (!decide (tqpsName ∈ [df0.cols.getD 3 "", df0.cols.getD 4 ""])) = true := by
    simp only [Bool.not_eq_true', decide_eq_false_iff_not, List.mem_cons, List.mem_singleton]
    rintro (h | h | h)
    · exact htqps (h ▸ hc3)
    · exact htqps (h ▸ hc4)
    · cases h
  have hP1tqv : (!decide (tqvName ∈ [df0.cols.getD 3 "", df0.cols.getD 4 ""])) = true := by
    simp only [Bool.not_eq_true', decide_eq_false_iff_not, List.mem_cons, List.mem_singleton]
    rintro (h | h | h)
    · exact htqv (h ▸ hc3)
    · exact htqv (h ▸ hc4)
    · cases h
  rw [pDf5, hdrop]
  rw [if_neg (by simp)]
  rw [pDf4_eq hnd hder hlen hn]
  rw [dropColsByName, dropColsByName]
  have hcols1 : (df0.cols ++ [tqpsName, tqvName]).filter
      (fun c => !decide (c ∈ [df0.cols.getD 3 "", df0.cols.getD 4 ""])) =
      df0.cols.filter (fun c => !decide (c ∈ [df0.cols.getD 3 "", df0.cols.getD 4 ""])) ++
        [tqpsName, tqvName] := by
    rw [List.filter_append]
    congr 1
    simp only [List.filter_cons, hP1tqps, hP1tqv]
    rfl
  refine DFrame.mk.injEq .. |>.mpr ⟨?_, ?_⟩
  · rw [hcols1, List.filter_append]
    have h2 : (df0.cols.filter
        (fun c => !decide (c ∈ [df0.cols.getD 3 "", df0.cols.getD 4 ""]))).filter
        (fun c => !decide (c ∈ [tqpsName])) =
        df0.cols.filter (fun c => !decide (c ∈ [df0.cols.getD 3 "", df0.cols.getD 4 ""])) := by
      refine List.filter_eq_self.mpr fun c hc => ?_
      have hcmem : c ∈ df0.cols := (List.mem_filter.mp hc).1
      simp only [Bool.not_eq_true', decide_eq_false_iff_not, List.mem_singleton]
      exact fun h => htqps (h ▸ hcmem)
    have h3 : [tqpsName, tqvName].filter (fun c => !decide (c ∈ [tqpsName])) = [tqvName] := by
      decide
    rw [h2, h3]
  · rw [List.map_map, List.map_map]
    refine List.map_congr_left fun r hr => ?_
    have hrmem : r ∈ df0.rows := (List.mem_filter.mp hr).1
    have hrlen : r.cells.length = df0.cols.length := hlen r hrmem
    simp only [Function.comp]
    have hfc1 : filterCols (fun c => !decide (c ∈ [df0.cols.getD 3 "", df0.cols.getD 4 ""]))
        (df0.cols ++ [tqpsName, tqvName])
        (r.cells ++ [sumifRow df0 (pSku df0) (pQty df0) r,
          sumifRow df0 (pSku df0) (pQty df0) r]) =
        filterCols (fun c => !decide (c ∈ [df0.cols.getD 3 "", df0.cols.getD 4 ""]))
          df0.cols r.cells ++
          [sumifRow df0 (pSku df0) (pQty df0) r, sumifRow df0 (pSku df0) (pQty df0) r] := by
      rw [filterCols_append _ _ _ hrlen.symm]
      congr 1
      exact filterCols_true _ _ _ rfl (by
        intro c hcm
        rcases List.mem_cons.mp hcm with rfl | hcm
        · exact hP1tqps
        · rcases List.mem_cons.mp hcm with rfl | hcm
          · exact hP1tqv
          · cases hcm)
    rw [hfc1, hcols1]
    have hlenf : (df0.cols.filter
        (fun c => !decide (c ∈ [df0.cols.getD 3 "", df0.cols.getD 4 ""]))).length =
        (filterCols (fun c => !decide (c ∈ [df0.cols.getD 3 "", df0.cols.getD 4 ""]))
          df0.cols r.cells).length :=
      (filterCols_length _ _ _ hrlen.symm).symm
    rw [filterCols_append _ _ _ hlenf]
    have hid : filterCols (fun c => !decide (c ∈ [tqpsName]))
        (df0.cols.filter (fun c => !decide (c ∈ [df0.cols.getD 3 "", df0.cols.getD 4 ""])))
        (filterCols (fun c => !decide (c ∈ [df0.cols.getD 3 "", df0.cols.getD 4 ""]))
          df0.cols r.cells) =
        filterCols (fun c => !decide (c ∈ [df0.cols.getD 3 "", df0.cols.getD 4 ""]))
          df0.cols r.cells := by
      refine filterCols_true _ _ _ hlenf fun c hc => ?_
      have hcmem : c ∈ df0.cols := (List.mem_filter.mp hc).1
      simp only [Bool.not_eq_true', decide_eq_false_iff_not, List.mem_singleton]
      exact fun h => htqps (h ▸ hcmem)
    rw [hid]
    have htail : filterCols (fun c => !decide (c ∈ [tqpsName])) [tqpsName, tqvName]
        [sumifRow df0 (pSku df0) (pQty df0) r, sumifRow df0 (pSku df0) (pQty df0) r] =
        [sumifRow df0 (pSku df0) (pQty df0) r] := by
      have hne : ¬ tqvName = tqpsName := by decide
      simp [filterCols, hne]
    rw [htail]

theorem list_decomp5 {α} (l : List α) (hn : 5 ≤ l.length) :
    ∃ a0 a1 a2 a3 a4 rest, l = a0 :: a1 :: a2 :: a3 :: a4 :: rest := by
  rcases l with _ | ⟨a0, _ | ⟨a1, _ | ⟨a2, _ | ⟨a3, _ | ⟨a4, rest⟩⟩⟩⟩⟩
  · simp at hn
  · simp at hn
  · simp at hn
  · simp at hn
  · simp at hn
  · exact ⟨a0, a1, a2, a3, a4, rest, rfl⟩

theorem list_decomp4 {α} (l : List α) (hn : 4 ≤ l.length) :
    ∃ a0 a1 a2 a3 rest, l = a0 :: a1 :: a2 :: a3 :: rest := by
  rcases l with _ | ⟨a0, _ | ⟨a1, _ | ⟨a2, _ | ⟨a3, rest⟩⟩⟩⟩
  · simp at hn
  · simp at hn
  · simp at hn
  · simp at hn
  · exact ⟨a0, a1, a2, a3, rest, rfl⟩

/-- Dropping the position-3 and position-4 names from a duplicate-free
column list removes exactly those two entries. -/
theorem filter_drop34 {a0 a1 a2 a3 a4 : String} {rest : List String}
    (hnd : (a0 :: a1 :: a2 :: a3 :: a4 :: rest).Nodup) :
    (a0 :: a1 :: a2 :: a3 :: a4 :: rest).filter (fun c => !decide (c ∈ [a3, a4])) =
      a0 :: a1 :: a2 :: rest := by
  simp only [List.nodup_cons, List.mem_cons, not_or] at hnd
  obtain ⟨⟨_, _, h03, h04, _⟩, ⟨_, h13, h14, _⟩, ⟨h23, h24, _⟩, ⟨h34, h3r⟩, h4r, _⟩ := hnd
  have hrest : rest.filter (fun c => !decide (c ∈ [a3, a4])) = rest := by
    refine List.filter_eq_self.mpr fun c hc => ?_
    have hcn : c ∉ [a3, a4] := by
      intro hmem
      rcases List.mem_cons.mp hmem with rfl | hmem
      · exact h3r hc
      · rcases List.mem_cons.mp hmem with rfl | hmem
        · exact h4r hc
        · cases hmem
    simpa using hcn
  simp only [List.filter_cons]
  rw [if_pos (by simp [h03, h04]), if_pos (by simp [h13, h14]), if_pos (by simp [h23, h24]),
    if_neg (by simp), if_neg (by simp), hrest]

/-- The cell-level analogue of `filter_drop34`. -/
theorem filterCols_drop34 {a0 a1 a2 a3 a4 : String} {rest : List String}
    (hnd : (a0 :: a1 :: a2 :: a3 :: a4 :: rest).Nodup)
    (b0 b1 b2 b3 b4 : Val) {brest : List Val} (hl : brest.length = rest.length) :
    filterCols (fun c => !decide (c ∈ [a3, a4])) (a0 :: a1 :: a2 :: a3 :: a4 :: rest)
      (b0 :: b1 :: b2 :: b3 :: b4 :: brest) = b0 :: b1 :: b2 :: brest := by
  simp only [List.nodup_cons, List.mem_cons, not_or] at hnd
  obtain ⟨⟨_, _, h03, h04, _⟩, ⟨_, h13, h14, _⟩, ⟨h23, h24, _⟩, ⟨h34, h3r⟩, h4r, _⟩ := hnd
  have hrest : filterCols (fun c => !decide (c ∈ [a3, a4])) rest brest = brest := by
    refine filterCols_true _ _ _ hl.symm fun c hc => ?_
    have hcn : c ∉ [a3, a4] := by
      intro hmem
      rcases List.mem_cons.mp hmem with rfl | hmem
      · exact h3r hc
      · rcases List.mem_cons.mp hmem with rfl | hmem
        · exact h4r hc
        · cases hmem
    simpa using hcn
  simp only [filterCols]
  rw [if_pos (by simp [h03, h04]), if_pos (by simp [h13, h14]), if_pos (by simp [h23, h24]),
    if_neg (by simp), if_neg (by simp), hrest]

theorem pDf5_sku_idx {df0 : DFrame} (hnd : df0.cols.Nodup)
    (hder : ∀ c ∈ df0.cols, c ∉ derivedNames)
    (hlen : ∀ r ∈ df0.rows, r.cells.length = df0.cols.length)
    (hn : 5 ≤ df0.cols.length) :
    colIdx (pDf5 df0) (pSku df0) = 0 := by
  rw [colIdx, pDf5_eq hnd hder hlen hn, pColsToDrop_eq hnd hder hlen hn, pSku]
  obtain ⟨a0, a1, a2, a3, a4, rest, hc⟩ := list_decomp5 df0.cols hn
  rw [hc]
  simp only [List.getD_cons_zero, List.getD_cons_succ]
  rw [filter_drop34 (hc ▸ hnd)]
  simp [colPos]

theorem pDf5_cols_len {df0 : DFrame} (hnd : df0.cols.Nodup)
    (hder : ∀ c ∈ df0.cols, c ∉ derivedNames)
    (hlen : ∀ r ∈ df0.rows, r.cells.length = df0.cols.length)
    (hn : 5 ≤ df0.cols.length) :
    (pDf5 df0).cols.length = df0.cols.length - 1 := by
  rw [pDf5_eq hnd hder hlen hn, pColsToDrop_eq hnd hder hlen hn]
  obtain ⟨a0, a1, a2, a3, a4, rest, hc⟩ := list_decomp5 df0.cols hn
  rw [hc]
  simp only [List.getD_cons_zero, List.getD_cons_succ]
  rw [filter_drop34 (hc ▸ hnd)]
  simp

theorem pDf6_eq {df0 : DFrame} (hnd : df0.cols.Nodup)
    (hder : ∀ c ∈ df0.cols, c ∉ derivedNames)
    (hlen : ∀ r ∈ df0.rows, r.cells.length = df0.cols.length)
    (hn : 5 ≤ df0.cols.length) :
    pDf6 df0 = ⟨(pDf5 df0).cols, dedupFirst (fun r => getCell r 0) [] (pDf5 df0).rows⟩ := by
  rw [pDf6, pDf5_sku_idx hnd hder hlen hn]

theorem pDf5_align {df0 : DFrame} (hnd : df0.cols.Nodup)
    (hder : ∀ c ∈ df0.cols, c ∉ derivedNames)
    (hlen : ∀ r ∈ df0.rows, r.cells.length = df0.cols.length)
    (hn : 5 ≤ df0.cols.length) :
    ∀ r ∈ (pDf5 df0).rows, r.cells.length = (pDf5 df0).cols.length := by
  rw [pDf5_eq hnd hder hlen hn]
  intro r hr
  obtain ⟨r0, hr0, rfl⟩ := List.mem_map.mp hr
  have hr0mem : r0 ∈ df0.rows := (List.mem_filter.mp hr0).1
  simp only [List.length_append, List.length_cons, List.length_nil]
  rw [filterCols_length _ _ _ (hlen r0 hr0mem).symm]

/-- The dedup stage keeps the columns and a sublist of the rows. -/
theorem pDf6_cols {df0 : DFrame} : (pDf6 df0).cols = (pDf5 df0).cols := rfl

theorem pDf6_rows_sublist {df0 : DFrame} (hnd : df0.cols.Nodup)
    (hder : ∀ c ∈ df0.cols, c ∉ derivedNames)
    (hlen : ∀ r ∈ df0.rows, r.cells.length = df0.cols.length)
    (hn : 5 ≤ df0.cols.length) :
    List.Sublist (pDf6 df0).rows (pDf5 df0).rows := by
  rw [pDf6_eq hnd hder hlen hn]
  exact dedupFirst_sublist _ [] _

theorem vel_not_mem_pDf5_cols {df0 : DFrame} (hnd : df0.cols.Nodup)
    (hder : ∀ c ∈ df0.cols, c ∉ derivedNames)
    (hlen : ∀ r ∈ df0.rows, r.cells.length = df0.cols.length)
    (hn : 5 ≤ df0.cols.length) :
    velName ∉ (pDf5 df0).cols := by
  rw [pDf5_eq hnd hder hlen hn]
  intro h
  rcases List.mem_append.mp h with h | h
  · exact name_not_mem_of_derived hder (by simp [derivedNames]) (List.mem_filter.mp h).1
  · have : velName = tqvName := by simpa using h
    exact absurd this (by decide)

/-- With at least 8 original columns, step 7 appends the velocity
column (computed from the position-6 column of the *current*, already
column-dropped frame) and issues no warning. -/
theorem pDf7_vel_eq {df0 : DFrame} (hnd : df0.cols.Nodup)
    (hder : ∀ c ∈ df0.cols, c ∉ derivedNames)
    (hlen : ∀ r ∈ df0.rows, r.cells.length = df0.cols.length)
    (h8 : 8 ≤ df0.cols.length) :
    pDf7 df0 = (⟨(pDf6 df0).cols ++ [velName],
      (pDf6 df0).rows.map (fun r => ⟨r.label,
        r.cells ++ [vmul (vdiv (getCell r
          (colIdx (pDf6 df0) ((pDf6 df0).cols.getD 6 ""))) (pTotal df0)) 100]⟩)⟩,
      ([] : List String)) := by
  have hn : 5 ≤ df0.cols.length := by omega
  have hguard : 6 < (pDf6 df0).cols.length := by
    rw [pDf6_cols, pDf5_cols_len hnd hder hlen hn]
    omega
  rw [pDf7, if_pos hguard]
  rw [setCol_new _ _ _ (by rw [pDf6_cols]; exact vel_not_mem_pDf5_cols hnd hder hlen hn)]

/-- With fewer than 8 original columns (but at least 5, so the run does
not abort), step 7 is skipped with the warning, leaving the dedup-stage
frame untouched. -/
theorem pDf7_skip_eq {df0 : DFrame} (hnd : df0.cols.Nodup)
    (hder : ∀ c ∈ df0.cols, c ∉ derivedNames)
    (hlen : ∀ r ∈ df0.rows, r.cells.length = df0.cols.length)
    (hn : 5 ≤ df0.cols.length) (h8 : df0.cols.length < 8) :
    pDf7 df0 = (pDf6 df0, [gColWarning]) := by
  have hguard : ¬ 6 < (pDf6 df0).cols.length := by
    rw [pDf6_cols, pDf5_cols_len hnd hder hlen hn]
    omega
  rw [pDf7, if_neg hguard]

theorem list_decomp9 {α} (l : List α) (hn : 9 ≤ l.length) :
    ∃ a0 a1 a2 a3 a4 a5 a6 a7 a8 rest,
      l = a0 :: a1 :: a2 :: a3 :: a4 :: a5 :: a6 :: a7 :: a8 :: rest := by
  rcases l with _ | ⟨a0, _ | ⟨a1, _ | ⟨a2, _ | ⟨a3, _ | ⟨a4, _ | ⟨a5, _ | ⟨a6, _ | ⟨a7, _ | ⟨a8, rest⟩⟩⟩⟩⟩⟩⟩⟩⟩
  · simp at hn
  · simp at hn
  · simp at hn
  · simp at hn
  · simp at hn
  · simp at hn
  · simp at hn
  · simp at hn
  · simp at hn
  · exact ⟨a0, a1, a2, a3, a4, a5, a6, a7, a8, rest, rfl⟩

/-- Every post-step-5 row comes from an original row with a non-`NaN`
SKU, with cells filtered and the SUMIF value appended. -/
theorem pDf5_rows_shape {df0 : DFrame} (hnd : df0.cols.Nodup)
    (hder : ∀ c ∈ df0.cols, c ∉ derivedNames)
    (hlen : ∀ r ∈ df0.rows, r.cells.length = df0.cols.length)
    (hn : 5 ≤ df0.cols.length) :
    ∀ r ∈ (pDf5 df0).rows, ∃ r0 ∈ df0.rows,
      (!(getCell r0 0).isNan) = true ∧
      r = ⟨r0.label, filterCols (fun c => !decide (c ∈ pColsToDrop df0)) df0.cols r0.cells ++
        [sumifRow df0 (pSku df0) (pQty df0) r0]⟩ := by
  rw [pDf5_eq hnd hder hlen hn]
  intro r hr
  obtain ⟨r0, hr0, rfl⟩ := List.mem_map.mp hr
  exact ⟨r0, (List.mem_filter.mp hr0).1, (List.mem_filter.mp hr0).2, rfl⟩

/-- For a table with at least 9 columns, position 6 of the
filtered cells is position 8 of the original cells. -/
theorem filterCols_drop34_getD6 {cols : List String} (hnd : cols.Nodup)
    (h9 : 9 ≤ cols.length) {cells : List Val} (hl : cells.length = cols.length) (d : Val) :
    (filterCols (fun c => !decide (c ∈ [cols.getD 3 "", cols.getD 4 ""])) cols cells).getD 6 d =
      cells.getD 8 d := by
  obtain ⟨a0, a1, a2, a3, a4, a5, a6, a7, a8, rest2, hc⟩ := list_decomp9 cols h9
  subst hc
  obtain ⟨b0, b1, b2, b3, b4, b5, b6, b7, b8, brest2, hb⟩ := list_decomp9 cells (by
    rw [hl]; simp)
  subst hb
  simp only [List.getD_cons_succ, List.getD_cons_zero]
  rw [filterCols_drop34 hnd b0 b1 b2 b3 b4 (by
    simp only [List.length_cons] at hl ⊢
    omega)]
  simp [List.getD_cons_succ, List.getD_cons_zero]

/-- For a table with at least 9 columns: the name at position 6 of the
post-drop frame is the *original position-8* name, and it resolves back
to position 6 there. -/
theorem pDf5_colG {df0 : DFrame} (hnd : df0.cols.Nodup)
    (hder : ∀ c ∈ df0.cols, c ∉ derivedNames)
    (hlen : ∀ r ∈ df0.rows, r.cells.length = df0.cols.length)
    (h9 : 9 ≤ df0.cols.length) :
    (pDf5 df0).cols.getD 6 "" = df0.cols.getD 8 "" ∧
      colPos (pDf5 df0).cols (df0.cols.getD 8 "") = 6 := by
  have hn : 5 ≤ df0.cols.length := by omega
  rw [pDf5_eq hnd hder hlen hn, pColsToDrop_eq hnd hder hlen hn]
  obtain ⟨a0, a1, a2, a3, a4, a5, a6, a7, a8, rest2, hc⟩ := list_decomp9 df0.cols h9
  rw [hc]
  have hnd9 := hc ▸ hnd
  simp only [List.getD_cons_succ, List.getD_cons_zero]
  rw [filter_drop34 hnd9]
  simp only [List.nodup_cons, List.mem_cons, not_or] at hnd9
  obtain ⟨⟨_, _, _, _, _, _, _, h08, _⟩, ⟨_, _, _, _, _, _, h18, _⟩,
    ⟨_, _, _, _, _, h28, _⟩, _, _, ⟨_, _, h58, _⟩, ⟨_, h68, _⟩, ⟨h78, _⟩, _, _⟩ := hnd9
  constructor
  · simp [List.cons_append, List.getD_cons_succ, List.getD_cons_zero]
  · simp [colPos, h08, h18, h28, h58, h68, h78]

theorem pDf8_cols {f : (Row → Val) → List Row → List Row} {df0 : DFrame} :
    (pDf8 f df0).cols = (pDf7 df0).1.cols := by
  rw [pDf8]
  split <;> rfl

theorem pDf8_rows_perm {f : (Row → Val) → List Row → List Row} (hf : SortConforming f)
    (df0 : DFrame) : (pDf8 f df0).rows.Perm (pDf7 df0).1.rows := by
  rw [pDf8]
  split
  · exact (hf _ _).1
  · exact List.Perm.refl _

theorem pDf8_sorted {f : (Row → Val) → List Row → List Row} (hf : SortConforming f)
    {df0 : DFrame} (h : velName ∈ (pDf7 df0).1.cols) :
    (pDf8 f df0).rows.Pairwise
      (rowSortRel (fun r => getCell r (colIdx (pDf7 df0).1 velName))) := by
  rw [pDf8, if_pos h]
  exact (hf _ _).2

theorem setCol_new_zip (df : DFrame) (name : String) (vals : List Val) (h : name ∉ df.cols) :
    setCol df name vals =
      ⟨df.cols ++ [name], (df.rows.zip vals).map (fun p => ⟨p.1.label, p.1.cells ++ [p.2]⟩)⟩ := by
  rw [setCol, if_neg h]

/-- Full shape of the focus stage (step 9) on an aligned frame that
does not yet carry the cumulative or focus columns: the cumulative cell
and the focus boolean are appended to every row, the focus boolean
being the OR of the two label-set memberships. -/
theorem focusStage_eq (df : DFrame) (hcum : cumName ∉ df.cols) (hfoc : focusName ∉ df.cols)
    (halign : ∀ r ∈ df.rows, r.cells.length = df.cols.length) :
    focusStage df = ⟨df.cols ++ [cumName, focusName],
      (df.rows.zip (cumsumVals (df.rows.map (fun r => getCell r (colIdx df velName))))).map
        (fun p => ⟨p.1.label, p.1.cells ++ [p.2,
          if p.1.label ∈ ((df.rows.filter
              (fun r => vge (getCell r (colIdx df tqvName)) 200)).map Row.label) ∨
             p.1.label ∈ (((df.rows.zip (cumsumVals (df.rows.map
              (fun r => getCell r (colIdx df velName))))).filter
              (fun q => vle q.2 80)).map (fun q => q.1.label))
          then Val.bool true else Val.bool false]⟩)⟩ := by
  have hfoc2 : focusName ∉ df.cols ++ [cumName] := by
    intro h
    rcases List.mem_append.mp h with h | h
    · exact hfoc h
    · have : focusName = cumName := by simpa using h
      exact absurd this (by decide)
  have hcumIdx : colPos (df.cols ++ [cumName]) cumName = df.cols.length := by
    rw [colPos_append_absent hcum]
    simp [colPos]
  have hfocIdx : colPos ((df.cols ++ [cumName]) ++ [focusName]) focusName =
      df.cols.length + 1 := by
    rw [colPos_append_absent hfoc2]
    simp [colPos]
  have hvol : ∀ (cums : List Val),
      (((df.rows.zip cums).map (fun p => (⟨p.1.label, p.1.cells ++ [p.2]⟩ : Row))).filter
        (fun r => vle (getCell r df.cols.length) 80)).map Row.label =
      ((df.rows.zip cums).filter (fun q => vle q.2 80)).map (fun q => q.1.label) := by
    intro cums
    rw [List.filter_map]
    have hcongr : ((df.rows.zip cums).filter
        ((fun r => vle (getCell r df.cols.length) 80) ∘
          (fun p => (⟨p.1.label, p.1.cells ++ [p.2]⟩ : Row)))) =
        ((df.rows.zip cums).filter (fun q => vle q.2 80)) := by
      refine List.filter_congr fun q hq => ?_
      have hq1 : q.1 ∈ df.rows := (List.of_mem_zip hq).1
      simp only [Function.comp]
      rw [getCell]
      show vle ((q.1.cells ++ [q.2]).getD df.cols.length .nan) 80 = _
      rw [← halign q.1 hq1, getD_append_len]
    rw [hcongr, List.map_map]
    rfl
  simp only [focusStage]
  rw [setCol_new_zip _ _ _ hcum, setCol_new_zip _ _ _ hfoc2]
  simp only [colIdx]
  rw [hcumIdx, hfocIdx, hvol]
  rw [zip_map_self]
  refine DFrame.mk.injEq .. |>.mpr ⟨by simp, ?_⟩
  rw [List.map_map, List.map_map, List.map_map]
  refine List.map_congr_left fun p hp => ?_
  obtain ⟨r, c⟩ := p
  have hr : r ∈ df.rows := (List.of_mem_zip hp).1
  have hrlen : r.cells.length = df.cols.length := halign r hr
  simp only [Function.comp, setCellAt]
  split
  · refine Row.mk.injEq .. |>.mpr ⟨rfl, ?_⟩
    rw [List.append_assoc]
    show (r.cells ++ [c, Val.bool false]).set (df.cols.length + 1) (Val.bool true) = _
    rw [List.set_append, if_neg (by omega), ← hrlen]
    simp
  · refine Row.mk.injEq .. |>.mpr ⟨rfl, ?_⟩
    rw [List.append_assoc]
    rfl

theorem colPos_lt_of_mem {cs : List String} {name : String} (h : name ∈ cs) :
    colPos cs name < cs.length := by
  induction cs with
  | nil => cases h
  | cons c cs ih =>
    by_cases hc : c = name
    · simp [colPos, hc]
    · have hm : name ∈ cs := by
        rcases List.mem_cons.mp h with h' | h'
        · exact absurd h'.symm hc
        · exact h'
      simp only [colPos, if_neg hc, List.length_cons]
      exact Nat.succ_lt_succ (ih hm)

theorem tqv_mem_pDf5_cols {df0 : DFrame} (hnd : df0.cols.Nodup)
    (hder : ∀ c ∈ df0.cols, c ∉ derivedNames)
    (hlen : ∀ r ∈ df0.rows, r.cells.length = df0.cols.length)
    (hn : 5 ≤ df0.cols.length) :
    tqvName ∈ (pDf5 df0).cols := by
  rw [pDf5_eq hnd hder hlen hn]
  simp

theorem process_ok (f : (Row → Val) → List Row → List Row) {df0 : DFrame}
    (hn : 5 ≤ df0.cols.length) :
    process f df0 = .ok ⟨pDf9 f df0, pTotal df0, (pDf7 df0).2⟩ := by
  rw [process, if_neg (by omega)]

theorem pDf6_align {df0 : DFrame} (hnd : df0.cols.Nodup)
    (hder : ∀ c ∈ df0.cols, c ∉ derivedNames)
    (hlen : ∀ r ∈ df0.rows, r.cells.length = df0.cols.length)
    (hn : 5 ≤ df0.cols.length) :
    ∀ r ∈ (pDf6 df0).rows, r.cells.length = (pDf6 df0).cols.length := by
  intro r hr
  rw [pDf6_cols]
  exact pDf5_align hnd hder hlen hn r ((pDf6_rows_sublist hnd hder hlen hn).subset hr)

theorem pDf7_align {df0 : DFrame} (hnd : df0.cols.Nodup)
    (hder : ∀ c ∈ df0.cols, c ∉ derivedNames)
    (hlen : ∀ r ∈ df0.rows, r.cells.length = df0.cols.length)
    (h8 : 8 ≤ df0.cols.length) :
    ∀ r ∈ (pDf7 df0).1.rows, r.cells.length = (pDf7 df0).1.cols.length := by
  have hn : 5 ≤ df0.cols.length := by omega
  rw [pDf7_vel_eq hnd hder hlen h8]
  intro r hr
  obtain ⟨r6, hr6, rfl⟩ := List.mem_map.mp hr
  simp only [List.length_append, List.length_cons, List.length_nil]
  rw [pDf6_align hnd hder hlen hn r6 hr6]

theorem pDf8_align {f : (Row → Val) → List Row → List Row} (hf : SortConforming f)
    {df0 : DFrame} (hnd : df0.cols.Nodup)
    (hder : ∀ c ∈ df0.cols, c ∉ derivedNames)
    (hlen : ∀ r ∈ df0.rows, r.cells.length = df0.cols.length)
    (h8 : 8 ≤ df0.cols.length) :
    ∀ r ∈ (pDf8 f df0).rows, r.cells.length = (pDf8 f df0).cols.length := by
  intro r hr
  rw [pDf8_cols]
  exact pDf7_align hnd hder hlen h8 r ((pDf8_rows_perm hf df0).subset hr)

theorem vel_mem_pDf7_cols {df0 : DFrame} (hnd : df0.cols.Nodup)
    (hder : ∀ c ∈ df0.cols, c ∉ derivedNames)
    (hlen : ∀ r ∈ df0.rows, r.cells.length = df0.cols.length)
    (h8 : 8 ≤ df0.cols.length) :
    velName ∈ (pDf7 df0).1.cols := by
  rw [pDf7_vel_eq hnd hder hlen h8]
  simp

theorem tqv_mem_pDf7_cols {df0 : DFrame} (hnd : df0.cols.Nodup)
    (hder : ∀ c ∈ df0.cols, c ∉ derivedNames)
    (hlen : ∀ r ∈ df0.rows, r.cells.length = df0.cols.length)
    (h8 : 8 ≤ df0.cols.length) :
    tqvName ∈ (pDf7 df0).1.cols := by
  have hn : 5 ≤ df0.cols.length := by omega
  rw [pDf7_vel_eq hnd hder hlen h8, pDf6_cols]
  exact List.mem_append.mpr (Or.inl (tqv_mem_pDf5_cols hnd hder hlen hn))

theorem cum_not_mem_pDf8_cols {f : (Row → Val) → List Row → List Row} {df0 : DFrame}
    (hnd : df0.cols.Nodup) (hder : ∀ c ∈ df0.cols, c ∉ derivedNames)
    (hlen : ∀ r ∈ df0.rows, r.cells.length = df0.cols.length)
    (h8 : 8 ≤ df0.cols.length) :
    cumName ∉ (pDf8 f df0).cols := by
  have hn : 5 ≤ df0.cols.length := by omega
  rw [pDf8_cols, pDf7_vel_eq hnd hder hlen h8, pDf6_cols, pDf5_eq hnd hder hlen hn]
  intro h
  rcases List.mem_append.mp h with h | h
  · rcases List.mem_append.mp h with h | h
    · exact name_not_mem_of_derived hder (by simp [derivedNames]) (List.mem_filter.mp h).1
    · have : cumName = tqvName := by simpa using h
      exact absurd this (by decide)
  · have : cumName = velName := by simpa using h
    exact absurd this (by decide)

theorem focus_not_mem_pDf8_cols {f : (Row → Val) → List Row → List Row} {df0 : DFrame}
    (hnd : df0.cols.Nodup) (hder : ∀ c ∈ df0.cols, c ∉ derivedNames)
    (hlen : ∀ r ∈ df0.rows, r.cells.length = df0.cols.length)
    (h8 : 8 ≤ df0.cols.length) :
    focusName ∉ (pDf8 f df0).cols := by
  have hn : 5 ≤ df0.cols.length := by omega
  rw [pDf8_cols, pDf7_vel_eq hnd hder hlen h8, pDf6_cols, pDf5_eq hnd hder hlen hn]
  intro h
  rcases List.mem_append.mp h with h | h
  · rcases List.mem_append.mp h with h | h
    · exact name_not_mem_of_derived hder (by simp [derivedNames]) (List.mem_filter.mp h).1
    · have : focusName = tqvName := by simpa using h
      exact absurd this (by decide)
  · have : focusName = velName := by simpa using h
    exact absurd this (by decide)

/-- With at least 8 original columns both step-9 guards hold, so the
final frame is the focus stage applied to the sorted frame. -/
theorem pDf9_eq_focus {f : (Row → Val) → List Row → List Row} {df0 : DFrame}
    (hnd : df0.cols.Nodup) (hder : ∀ c ∈ df0.cols, c ∉ derivedNames)
    (hlen : ∀ r ∈ df0.rows, r.cells.length = df0.cols.length)
    (h8 : 8 ≤ df0.cols.length) :
    pDf9 f df0 = focusStage (pDf8 f df0) := by
  rw [pDf9, if_pos]
  constructor
  · rw [pDf8_cols]
    exact tqv_mem_pDf7_cols hnd hder hlen h8
  · rw [pDf8_cols]
    exact vel_mem_pDf7_cols hnd hder hlen h8

/-- With fewer than 8 original columns (but at least 5), steps 8 and 9
are no-ops: the pipeline's final frame is the dedup-stage frame. -/
theorem pDf9_eq_skip {f : (Row → Val) → List Row → List Row} {df0 : DFrame}
    (hnd : df0.cols.Nodup) (hder : ∀ c ∈ df0.cols, c ∉ derivedNames)
    (hlen : ∀ r ∈ df0.rows, r.cells.length = df0.cols.length)
    (hn : 5 ≤ df0.cols.length) (h8 : df0.cols.length < 8) :
    pDf9 f df0 = pDf6 df0 := by
  have hvel : velName ∉ (pDf7 df0).1.cols := by
    rw [pDf7_skip_eq hnd hder hlen hn h8, pDf6_cols]
    exact vel_not_mem_pDf5_cols hnd hder hlen hn
  have h7 : pDf8 f df0 = pDf6 df0 := by
    rw [pDf8, if_neg hvel, pDf7_skip_eq hnd hder hlen hn h8]
  rw [pDf9, if_neg, h7]
  intro hcontra
  rw [pDf8_cols] at hcontra
  exact hvel hcontra.2

theorem valEq_nan_right (x : Val) : valEq x .nan = false := by
  cases x <;> simp [valEq, Val.norm]

theorem getD_set_ne {α} : ∀ (l : List α) (i j : ℕ), i ≠ j → ∀ (v d : α),
    (l.set i v).getD j d = l.getD j d := by
  intro l
  induction l with
  | nil => intro i j _ v d; rfl
  | cons a l ih =>
    intro i j hij v d
    cases i with
    | zero =>
      cases j with
      | zero => exact absurd rfl hij
      | succ j => simp [List.getD_cons_succ]
    | succ i =>
      cases j with
      | zero => simp [List.getD_cons_zero]
      | succ j => simpa [List.getD_cons_succ] using ih i j (by omega) v d

theorem pDf5_labels {df0 : DFrame} (hnd : df0.cols.Nodup)
    (hder : ∀ c ∈ df0.cols, c ∉ derivedNames)
    (hlen : ∀ r ∈ df0.rows, r.cells.length = df0.cols.length)
    (hn : 5 ≤ df0.cols.length) :
    (pDf5 df0).rows.map Row.label =
      (df0.rows.filter (fun r => !(getCell r 0).isNan)).map Row.label := by
  rw [pDf5_eq hnd hder hlen hn, List.map_map]
  rfl

theorem pDf8_labels_nodup {f : (Row → Val) → List Row → List Row} (hf : SortConforming f)
    {df0 : DFrame} (hnd : df0.cols.Nodup)
    (hder : ∀ c ∈ df0.cols, c ∉ derivedNames)
    (hlen : ∀ r ∈ df0.rows, r.cells.length = df0.cols.length)
    (hlab : (df0.rows.map Row.label).Nodup)
    (h8 : 8 ≤ df0.cols.length) :
    ((pDf8 f df0).rows.map Row.label).Nodup := by
  have hn : 5 ≤ df0.cols.length := by omega
  have h5 : ((pDf5 df0).rows.map Row.label).Nodup := by
    rw [pDf5_labels hnd hder hlen hn]
    exact hlab.sublist (List.Sublist.map _ (List.filter_sublist _))
  have h6 : ((pDf6 df0).rows.map Row.label).Nodup :=
    h5.sublist (List.Sublist.map _ (pDf6_rows_sublist hnd hder hlen hn))
  have h7 : ((pDf7 df0).1.rows.map Row.label).Nodup := by
    rw [pDf7_vel_eq hnd hder hlen h8, List.map_map]
    exact h6
  exact ((pDf8_rows_perm hf df0).map Row.label).nodup_iff.mpr h7

theorem vel_idx_pDf7 {df0 : DFrame} (hnd : df0.cols.Nodup)
    (hder : ∀ c ∈ df0.cols, c ∉ derivedNames)
    (hlen : ∀ r ∈ df0.rows, r.cells.length = df0.cols.length)
    (h8 : 8 ≤ df0.cols.length) :
    colIdx (pDf7 df0).1 velName = (pDf6 df0).cols.length := by
  have hn : 5 ≤ df0.cols.length := by omega
  rw [pDf7_vel_eq hnd hder hlen h8, colIdx]
  show colPos ((pDf6 df0).cols ++ [velName]) velName = (pDf6 df0).cols.length
  rw [colPos_append_absent (by rw [pDf6_cols]; exact vel_not_mem_pDf5_cols hnd hder hlen hn)]
  simp [colPos]

theorem pDf7_row_shape {df0 : DFrame} (hnd : df0.cols.Nodup)
    (hder : ∀ c ∈ df0.cols, c ∉ derivedNames)
    (hlen : ∀ r ∈ df0.rows, r.cells.length = df0.cols.length)
    (h8 : 8 ≤ df0.cols.length) :
    ∀ r ∈ (pDf7 df0).1.rows, ∃ r6 ∈ (pDf6 df0).rows,
      r = ⟨r6.label, r6.cells ++
        [vmul (vdiv (getCell r6 (colIdx (pDf6 df0) ((pDf6 df0).cols.getD 6 "")))
          (pTotal df0)) 100]⟩ := by
  rw [pDf7_vel_eq hnd hder hlen h8]
  intro r hr
  obtain ⟨r6, hr6, rfl⟩ := List.mem_map.mp hr
  exact ⟨r6, hr6, rfl⟩

theorem pDf9_row_shape {f : (Row → Val) → List Row → List Row} (hf : SortConforming f)
    {df0 : DFrame} (hnd : df0.cols.Nodup)
    (hder : ∀ c ∈ df0.cols, c ∉ derivedNames)
    (hlen : ∀ r ∈ df0.rows, r.cells.length = df0.cols.length)
    (h8 : 8 ≤ df0.cols.length) :
    ∀ row ∈ (pDf9 f df0).rows, ∃ r8 ∈ (pDf8 f df0).rows, ∃ c fv : Val,
      row = ⟨r8.label, r8.cells ++ [c, fv]⟩ := by
  rw [pDf9_eq_focus hnd hder hlen h8,
    focusStage_eq _ (cum_not_mem_pDf8_cols hnd hder hlen h8)
      (focus_not_mem_pDf8_cols hnd hder hlen h8) (pDf8_align hf hnd hder hlen h8)]
  intro row hrow
  obtain ⟨p, hp, rfl⟩ := List.mem_map.mp hrow
  exact ⟨p.1, (List.of_mem_zip hp).1, p.2, _, rfl⟩

theorem mem_filter_map_of_nodup {α β} {g : α → β} {l : List α}
    (hnd : (l.map g).Nodup) {p : α → Bool} {x : α} (hx : x ∈ l) :
    (g x ∈ (l.filter p).map g) ↔ p x = true := by
  constructor
  · intro hmem
    obtain ⟨x', hx', hgx⟩ := List.mem_map.mp hmem
    have hx'mem : x' ∈ l := (List.mem_filter.mp hx').1
    have : x' = x := List.inj_on_of_nodup_map hnd hx'mem hx hgx
    exact this ▸ (List.mem_filter.mp hx').2
  · intro hp
    exact List.mem_map.mpr ⟨x, List.mem_filter.mpr ⟨hx, hp⟩, rfl⟩

theorem pairwise_zip_left {α β} {S : α → α → Prop} :
    ∀ {l : List α}, l.Pairwise S → ∀ (v : List β),
      (l.zip v).Pairwise (fun p q => S p.1 q.1) := by
  intro l hl
  induction hl with
  | nil => intro v; simp
  | cons hhead _ ih =>
    intro v
    cases v with
    | nil => simp
    | cons b v =>
      rw [List.zip_cons_cons]
      refine List.Pairwise.cons (fun q hq => ?_) (ih v)
      exact hhead q.1 (List.of_mem_zip hq).1

/-- Running sums of non-negative finite values are non-decreasing. -/
theorem cumsum_chain (a : ℚ) : ∀ (l : List Val),
    (∀ v ∈ l, ∃ q : ℚ, v = .num q ∧ 0 ≤ q) →
    List.Chain' (fun x y => ∃ p q : ℚ, x = .num p ∧ y = .num q ∧ p ≤ q)
      (.num a :: cumsumGo (.num a) l) := by
  intro l
  induction l generalizing a with
  | nil => intro _; simp [cumsumGo]
  | cons v rest ih =>
    intro hall
    obtain ⟨q, hq, hq0⟩ := hall v (List.mem_cons_self v rest)
    subst hq
    show List.Chain' _ (Val.num a :: Val.num (a + q) :: cumsumGo (Val.num (a + q)) rest)
    refine List.chain'_cons.mpr ⟨⟨a, a + q, rfl, rfl, by linarith⟩, ?_⟩
    exact ih (a + q) (fun v hv => hall v (List.mem_cons_of_mem _ hv))

/-- A fold of `vadd`-with-skipna over number-or-`NaN` values adds a
fixed finite amount to any numeric starting accumulator. -/
theorem vsum_go_num : ∀ (l : List Val),
    (∀ v ∈ l, (∃ p : ℚ, v = .num p) ∨ v = .nan) →
    ∃ s : ℚ, ∀ b : ℚ,
      l.foldl (fun acc v => if v.isNan then acc else vadd acc v) (.num b) = .num (b + s) := by
  intro l
  induction l with
  | nil => exact fun _ => ⟨0, fun b => by simp⟩
  | cons v rest ih =>
    intro hall
    obtain ⟨s', hs'⟩ := ih (fun v hv => hall v (List.mem_cons_of_mem _ hv))
    rcases hall v (List.mem_cons_self v rest) with ⟨p, rfl⟩ | rfl
    · refine ⟨p + s', fun b => ?_⟩
      rw [List.foldl_cons]
      show rest.foldl (fun acc v => if v.isNan then acc else vadd acc v) (.num (b + p)) =
        .num (b + (p + s'))
      rw [hs' (b + p)]
      ring_nf
    · refine ⟨s', fun b => ?_⟩
      rw [List.foldl_cons]
      show rest.foldl (fun acc v => if v.isNan then acc else vadd acc v) (.num b) =
        .num (b + s')
      exact hs' b

/-- The focus stage always appends exactly the cumulative and focus
columns (this depends only on the column list, not on the rows). -/
theorem focusStage_cols (df : DFrame) (hcum : cumName ∉ df.cols) (hfoc : focusName ∉ df.cols) :
    (focusStage df).cols = df.cols ++ [cumName, focusName] := by
  have hfoc2 : focusName ∉ df.cols ++ [cumName] := by
    intro h
    rcases List.mem_append.mp h with h | h
    · exact hfoc h
    · have : focusName = cumName := by simpa using h
      exact absurd this (by decide)
  simp only [focusStage]
  rw [setCol_new_zip _ _ _ hcum, setCol_new_zip _ _ _ hfoc2]
  simp

/-! ## Claim theorems -/

/-- C2 (code_bug): the claim (and the spec) require that a table with
fewer than 5 columns skips the quantity-dependent stages with a warning
and still returns the row-drop-cleaned table.  The code instead fails
fatally: resolving `processed_df.columns[4]` (source line 38) raises
`IndexError`, the top-level handler (line 157) reports a terminal error,
and no table at all is returned.  This theorem evaluates the code on the
failing inputs: every sub-5-column table produces the terminal error. -/
theorem c2_short_table_fatal (f : (Row → Val) → List Row → List Row) (df0 : DFrame)
    (h : df0.cols.length < 5) : process f df0 = .error shortColsError := by
  rw [process, if_pos h]

unseal Rat.add Rat.mul Rat.sub Rat.inv in
theorem c2_short_table_fatal_witness :
    ex3.cols.length < 5 ∧ process insort ex3 = .error shortColsError :=
  ⟨by decide, c2_short_table_fatal insort ex3 (by decide)⟩

unseal Rat.add Rat.mul Rat.sub Rat.inv in
/-- C4 (code_bug): the claim (and the spec) require an explicit fallback
when the table-wide total quantity is 0, and that no non-finite value
reaches the output.  The code divides by the zero total anyway
(source line 87), and the resulting `+inf` velocities propagate into the
output table: on `exZero` the stored total is `0` and the output
velocity column contains `+inf`. -/
theorem c4_zero_total_nonfinite :
    resTotal (process insort exZero) = .num 0 ∧
    Val.pinf ∈ colVals (resFrame (process insort exZero)) velName ∧
    colVals (resFrame (process insort exZero)) velName = [.pinf, .pinf] := by decide

/-- C6 (confirmed): the stored total quantity is the sum of the
original position-4 quantity column over *all* input rows, taken before
any row is dropped; it is computed once (source line 51) and the value
reported with the result is exactly that sum, unchanged by the cleaning,
dedup and sorting stages. -/
theorem c6_total_pre_clean (f : (Row → Val) → List Row → List Row) (df0 : DFrame)
    (hnd : df0.cols.Nodup) (hder : ∀ c ∈ df0.cols, c ∉ derivedNames)
    (hlen : ∀ r ∈ df0.rows, r.cells.length = df0.cols.length)
    (hn : 5 ≤ df0.cols.length) :
    resTotal (process f df0) = vsum (df0.rows.map (fun r => getCell r 4)) := by
  rw [process_ok f hn]
  show pTotal df0 = _
  exact pTotal_eq hnd hder hlen hn

unseal Rat.add Rat.mul Rat.sub Rat.inv in
theorem c6_total_pre_clean_witness :
    resTotal (process insort ex9) = vsum (ex9.rows.map (fun r => getCell r 4)) ∧
    resTotal (process insort ex9) = .num 40 :=
  ⟨c6_total_pre_clean insort ex9 (by decide) (by decide) (by decide) (by decide), by decide⟩

unseal Rat.add Rat.mul Rat.sub Rat.inv in
/-- C3 (corrected, counterexample): the claim says the velocity stage is
skipped exactly when the table has fewer than 7 columns.  On a 7-column
table (not fewer than 7) the stage is nevertheless skipped with the
warning: the guard `len(processed_df.columns) > 6` (source line 85) runs
*after* columns D and E were dropped and `Total_Quantity_Values` added,
so a 7-column input has only 6 columns left at that point. -/
theorem c3_counterexample_seven_columns :
    7 ≤ ex7.cols.length ∧
    velName ∉ (resFrame (process insort ex7)).cols ∧
    resWarnings (process insort ex7) = [gColWarning] ∧
    (resFrame (process insort ex7)).rows.length = 2 := by decide

/-- C3 (corrected, amended): for inputs that do not abort (at least 5
columns), the velocity stage is skipped with the warning exactly when
the input has fewer than 8 columns (equivalently, when the post-drop
frame has fewer than 7); when it skips, the ranking and focus-flag
stages also skip, so the result is exactly the dedup-stage frame. -/
theorem c3_amended_skip_threshold (f : (Row → Val) → List Row → List Row) (df0 : DFrame)
    (hnd : df0.cols.Nodup) (hder : ∀ c ∈ df0.cols, c ∉ derivedNames)
    (hlen : ∀ r ∈ df0.rows, r.cells.length = df0.cols.length)
    (hn : 5 ≤ df0.cols.length) :
    (velName ∈ (resFrame (process f df0)).cols ↔ 8 ≤ df0.cols.length) ∧
    (df0.cols.length < 8 →
      resFrame (process f df0) = pDf6 df0 ∧
      resWarnings (process f df0) = [gColWarning]) ∧
    (8 ≤ df0.cols.length → resWarnings (process f df0) = []) := by
  rw [process_ok f hn]
  simp only [resFrame, resWarnings]
  by_cases h8 : 8 ≤ df0.cols.length
  · refine ⟨⟨fun _ => h8, fun _ => ?_⟩, fun h => absurd h8 (by omega), fun _ => ?_⟩
    · rw [pDf9_eq_focus hnd hder hlen h8,
        focusStage_cols _ (cum_not_mem_pDf8_cols hnd hder hlen h8)
          (focus_not_mem_pDf8_cols hnd hder hlen h8)]
      exact List.mem_append.mpr (Or.inl
        (pDf8_cols ▸ vel_mem_pDf7_cols hnd hder hlen h8))
    · rw [pDf7_vel_eq hnd hder hlen h8]
  · have h8' : df0.cols.length < 8 := by omega
    refine ⟨⟨fun hmem => ?_, fun h => absurd h h8⟩, fun _ => ⟨?_, ?_⟩, fun h => absurd h h8⟩
    · rw [pDf9_eq_skip hnd hder hlen hn h8', pDf6_cols] at hmem
      exact absurd hmem (vel_not_mem_pDf5_cols hnd hder hlen hn)
    · exact pDf9_eq_skip hnd hder hlen hn h8'
    · rw [pDf7_skip_eq hnd hder hlen hn h8']

unseal Rat.add Rat.mul Rat.sub Rat.inv in
theorem c3_amended_skip_threshold_witness :
    ((velName ∈ (resFrame (process insort ex7)).cols ↔ 8 ≤ ex7.cols.length) ∧
    (ex7.cols.length < 8 →
      resFrame (process insort ex7) = pDf6 ex7 ∧
      resWarnings (process insort ex7) = [gColWarning]) ∧
    (8 ≤ ex7.cols.length → resWarnings (process insort ex7) = [])) :=
  c3_amended_skip_threshold insort ex7 (by decide) (by decide) (by decide) (by decide)

unseal Rat.add Rat.mul Rat.sub Rat.inv in
/-- C1 (corrected, counterexample): the claim says each surviving row's
velocity is its *original position-6* cell over the total, times 100.
On `ex9` (9 columns, total 40) the row labeled 0 has position-6 cell `5`
and position-8 cell `20`; the claim demands velocity `12.5`, but the
pipeline produces `50`, because `processed_df.columns[6]` is resolved
*after* two columns were dropped (source lines 66-76, 86). -/
theorem c1_counterexample_position6 :
    ((resFrame (process insort ex9)).rows.map
      (fun r => (r.label, getCell r (colIdx (resFrame (process insort ex9)) velName)))) =
      [(0, .num 50), (1, .num 25)] ∧
    vmul (vdiv (getCell (ex9.rows.getD 0 ⟨0, []⟩) 6) (resTotal (process insort ex9))) 100 =
      .num (25 / 2) ∧
    Val.num 50 ≠ Val.num (25 / 2) := by decide

/-- C1 (corrected, amended): for an input table with at least 9 columns
(unique names, none of them the pipeline's derived names, aligned rows),
every output row's velocity equals the *original position-8* cell of
the corresponding input row, divided by the stored total quantity,
times 100.  (`processed_df.columns[6]` at source line 86 is read after
positions 3 and 4 were dropped, so it denotes original position 8.) -/
theorem c1_amended_velocity_position8 (f : (Row → Val) → List Row → List Row)
    (hf : SortConforming f) (df0 : DFrame)
    (hnd : df0.cols.Nodup) (hder : ∀ c ∈ df0.cols, c ∉ derivedNames)
    (hlen : ∀ r ∈ df0.rows, r.cells.length = df0.cols.length)
    (h9 : 9 ≤ df0.cols.length) :
    ∀ row ∈ (resFrame (process f df0)).rows, ∃ r0 ∈ df0.rows, row.label = r0.label ∧
      getCell row (colIdx (resFrame (process f df0)) velName) =
        vmul (vdiv (getCell r0 8) (pTotal df0)) 100 := by
  have h8 : 8 ≤ df0.cols.length := by omega
  have hn : 5 ≤ df0.cols.length := by omega
  rw [process_ok f hn]
  simp only [resFrame]
  have hfinalcols : (pDf9 f df0).cols = (pDf8 f df0).cols ++ [cumName, focusName] := by
    rw [pDf9_eq_focus hnd hder hlen h8]
    exact focusStage_cols _ (cum_not_mem_pDf8_cols hnd hder hlen h8)
      (focus_not_mem_pDf8_cols hnd hder hlen h8)
  have hvelIdx : colIdx (pDf9 f df0) velName = (pDf6 df0).cols.length := by
    rw [colIdx, hfinalcols,
      colPos_append_of_mem (pDf8_cols (f := f) ▸ vel_mem_pDf7_cols hnd hder hlen h8)]
    rw [pDf8_cols]
    exact vel_idx_pDf7 hnd hder hlen h8
  intro row hrow
  obtain ⟨r8, hr8, c, fv, rfl⟩ := pDf9_row_shape hf hnd hder hlen h8 row hrow
  have hr7 : r8 ∈ (pDf7 df0).1.rows := (pDf8_rows_perm hf df0).subset hr8
  obtain ⟨r6, hr6, rfl⟩ := pDf7_row_shape hnd hder hlen h8 r8 hr7
  have hr5 : r6 ∈ (pDf5 df0).rows := (pDf6_rows_sublist hnd hder hlen hn).subset hr6
  obtain ⟨r0, hr0, hskunan, hr6eq⟩ := pDf5_rows_shape hnd hder hlen hn r6 hr5
  refine ⟨r0, hr0, by rw [hr6eq], ?_⟩
  rw [hvelIdx]
  have hr6len : r6.cells.length = (pDf6 df0).cols.length := pDf6_align hnd hder hlen hn r6 hr6
  rw [getCell]
  show ((r6.cells ++ [vmul (vdiv (getCell r6
      (colIdx (pDf6 df0) ((pDf6 df0).cols.getD 6 ""))) (pTotal df0)) 100]) ++
      [c, fv]).getD (pDf6 df0).cols.length .nan = _
  rw [List.getD_append _ _ _ _ (by
    simp only [List.length_append, List.length_cons, List.length_nil]
    omega)]
  rw [← hr6len, getD_append_len]
  have hcolg := pDf5_colG hnd hder hlen h9
  have hidx6 : colIdx (pDf6 df0) ((pDf6 df0).cols.getD 6 "") = 6 := by
    rw [colIdx, pDf6_cols, hcolg.1]
    exact hcolg.2
  rw [hidx6]
  have hflen : (filterCols (fun ce => !decide (ce ∈ pColsToDrop df0)) df0.cols r0.cells).length =
      df0.cols.length - 2 := by
    rw [filterCols_length _ _ _ (hlen r0 hr0).symm]
    have hc5 := pDf5_cols_len hnd hder hlen hn
    rw [pDf5_eq hnd hder hlen hn] at hc5
    simp only [List.length_append, List.length_cons, List.length_nil] at hc5
    omega
  have hcell6 : getCell r6 6 = getCell r0 8 := by
    rw [hr6eq, getCell, getCell]
    show ((filterCols (fun ce => !decide (ce ∈ pColsToDrop df0)) df0.cols r0.cells) ++
      [sumifRow df0 (pSku df0) (pQty df0) r0]).getD 6 .nan = r0.cells.getD 8 .nan
    rw [List.getD_append _ _ _ _ (by omega)]
    rw [pColsToDrop_eq hnd hder hlen hn]
    exact filterCols_drop34_getD6 hnd h9 (hlen r0 hr0) .nan
  rw [hcell6]

unseal Rat.add Rat.mul Rat.sub Rat.inv in
theorem c1_amended_velocity_position8_witness :
    ∃ r0 ∈ ex9.rows,
      ((resFrame (process insort ex9)).rows.getD 0 ⟨0, []⟩).label = r0.label ∧
      getCell ((resFrame (process insort ex9)).rows.getD 0 ⟨0, []⟩)
          (colIdx (resFrame (process insort ex9)) velName) =
        vmul (vdiv (getCell r0 8) (pTotal ex9)) 100 :=
  c1_amended_velocity_position8 insort insort_conforming ex9
    (by decide) (by decide) (by decide) (by decide)
    ((resFrame (process insort ex9)).rows.getD 0 ⟨0, []⟩)
    (getD_mem (by decide) _)

/-- The focus stage only appends cells, so any pairwise relation on a
cell position of the sorted frame carries over to the final frame. -/
theorem pairwise_final_of_pairwise_df8 {f : (Row → Val) → List Row → List Row}
    (hf : SortConforming f) {df0 : DFrame}
    (hnd : df0.cols.Nodup) (hder : ∀ c ∈ df0.cols, c ∉ derivedNames)
    (hlen : ∀ r ∈ df0.rows, r.cells.length = df0.cols.length)
    (h8 : 8 ≤ df0.cols.length) {R : Val → Val → Prop} {i : ℕ}
    (hi : i < (pDf6 df0).cols.length + 1)
    (hP8 : (pDf8 f df0).rows.Pairwise (fun a b => R (getCell a i) (getCell b i))) :
    (pDf9 f df0).rows.Pairwise (fun a b => R (getCell a i) (getCell b i)) := by
  have hlen8 : ∀ r ∈ (pDf8 f df0).rows, r.cells.length = (pDf6 df0).cols.length + 1 := by
    intro r hr
    have := pDf8_align hf hnd hder hlen h8 r hr
    rw [pDf8_cols, pDf7_vel_eq hnd hder hlen h8] at this
    simpa using this
  rw [pDf9_eq_focus hnd hder hlen h8,
    focusStage_eq _ (cum_not_mem_pDf8_cols hnd hder hlen h8)
      (focus_not_mem_pDf8_cols hnd hder hlen h8) (pDf8_align hf hnd hder hlen h8)]
  refine List.pairwise_map.mpr ?_
  refine List.Pairwise.imp_of_mem ?_ (pairwise_zip_left hP8 _)
  intro p q hp hq hR
  have hcell : ∀ (r : Row) (extra : List Val), r ∈ (pDf8 f df0).rows →
      getCell ⟨r.label, r.cells ++ extra⟩ i = getCell r i := by
    intro r extra hr
    rw [getCell, getCell]
    exact List.getD_append _ _ _ _ (by rw [hlen8 r hr]; omega)
  rw [hcell p.1 _ (List.of_mem_zip hp).1, hcell q.1 _ (List.of_mem_zip hq).1]
  exact hR

unseal Rat.add Rat.mul Rat.sub Rat.inv in
/-- C5 (corrected, counterexample): pandas `sort_values` with its
default `kind='quicksort'` does not specify the order of tied keys, so
"rows with equal velocity keep their original pre-sort relative order"
is not guaranteed.  `badSort` satisfies the full contract pandas gives
(`SortConforming`: the output is a permutation sorted by the key), yet
on the two-way tie `exTie` it emits the rows in the order `[1, 0]`,
reversing the pre-sort order `[0, 1]` of the dedup stage. -/
theorem c5_counterexample_unstable_ties :
    SortConforming badSort ∧
    (pDf6 exTie).rows.map Row.label = [0, 1] ∧
    (resFrame (process badSort exTie)).rows.map Row.label = [1, 0] ∧
    colVals (resFrame (process badSort exTie)) velName = [.num 25, .num 25] :=
  ⟨badSort_conforming, by decide, by decide, by decide⟩

/-- C5 (corrected, amended): for every conforming sort routine, the
output velocity column is sorted in descending order (`sortLE a b`
means `a` may precede `b` in the descending, NaN-last order; on finite
numbers it is `velocity[i] ≥ velocity[i+1]`).  The order of rows with
equal velocities is left unspecified by pandas' default quicksort. -/
theorem c5_amended_sorted_descending (f : (Row → Val) → List Row → List Row)
    (hf : SortConforming f) (df0 : DFrame)
    (hnd : df0.cols.Nodup) (hder : ∀ c ∈ df0.cols, c ∉ derivedNames)
    (hlen : ∀ r ∈ df0.rows, r.cells.length = df0.cols.length)
    (h8 : 8 ≤ df0.cols.length) :
    (colVals (resFrame (process f df0)) velName).Pairwise
      (fun a b => sortLE a b = true) := by
  have hn : 5 ≤ df0.cols.length := by omega
  rw [process_ok f hn]
  simp only [resFrame]
  have hfinalcols : (pDf9 f df0).cols = (pDf8 f df0).cols ++ [cumName, focusName] := by
    rw [pDf9_eq_focus hnd hder hlen h8]
    exact focusStage_cols _ (cum_not_mem_pDf8_cols hnd hder hlen h8)
      (focus_not_mem_pDf8_cols hnd hder hlen h8)
  have hvelIdx : colIdx (pDf9 f df0) velName = (pDf6 df0).cols.length := by
    rw [colIdx, hfinalcols,
      colPos_append_of_mem (pDf8_cols (f := f) ▸ vel_mem_pDf7_cols hnd hder hlen h8)]
    rw [pDf8_cols]
    exact vel_idx_pDf7 hnd hder hlen h8
  rw [colVals, hvelIdx]
  refine List.pairwise_map.mpr ?_
  have hsorted := pDf8_sorted hf (vel_mem_pDf7_cols hnd hder hlen h8)
  rw [vel_idx_pDf7 hnd hder hlen h8] at hsorted
  have hsorted2 : (pDf8 f df0).rows.Pairwise
      (fun a b => (fun x y => sortLE x y = true)
        (getCell a (pDf6 df0).cols.length) (getCell b (pDf6 df0).cols.length)) := hsorted
  exact pairwise_final_of_pairwise_df8 (R := fun x y => sortLE x y = true)
    (i := (pDf6 df0).cols.length) hf hnd hder hlen h8 (by omega) hsorted2

unseal Rat.add Rat.mul Rat.sub Rat.inv in
theorem c5_amended_sorted_descending_witness :
    (colVals (resFrame (process insort ex9)) velName).Pairwise
      (fun a b => sortLE a b = true) :=
  c5_amended_sorted_descending insort insort_conforming ex9
    (by decide) (by decide) (by decide) (by decide)

/-- C7 (confirmed): no two rows of the output table have `dedupEq`-equal
position-0 SKU cells, and every output row is the *first* row (in the
order of the frame entering the dedup step) whose SKU matches its own:
`find?` over the pre-dedup rows returns exactly the row it descends
from (same label). -/
theorem c7_dedup_unique_first (f : (Row → Val) → List Row → List Row)
    (hf : SortConforming f) (df0 : DFrame)
    (hnd : df0.cols.Nodup) (hder : ∀ c ∈ df0.cols, c ∉ derivedNames)
    (hlen : ∀ r ∈ df0.rows, r.cells.length = df0.cols.length)
    (hn : 5 ≤ df0.cols.length) :
    ((resFrame (process f df0)).rows.Pairwise
      (fun a b => dedupEq (getCell a 0) (getCell b 0) = false)) ∧
    (∀ row ∈ (resFrame (process f df0)).rows,
      ∃ r5, (pDf5 df0).rows.find? (fun x => dedupEq (getCell x 0) (getCell row 0)) = some r5 ∧
        r5.label = row.label) := by
  rw [process_ok f hn]
  simp only [resFrame]
  have hP6 : (pDf6 df0).rows.Pairwise
      (fun a b => dedupEq (getCell a 0) (getCell b 0) = false) := by
    rw [pDf6_eq hnd hder hlen hn]
    exact dedupFirst_pairwise _ [] _
  have hfind6 : ∀ r6 ∈ (pDf6 df0).rows,
      (pDf5 df0).rows.find? (fun x => dedupEq (getCell x 0) (getCell r6 0)) = some r6 := by
    intro r6 hr6
    rw [pDf6_eq hnd hder hlen hn] at hr6
    exact dedupFirst_find? _ [] _ r6 hr6
  have hlen6pos : 0 < (pDf6 df0).cols.length := by
    rw [pDf6_cols, pDf5_cols_len hnd hder hlen hn]
    omega
  by_cases h8 : 8 ≤ df0.cols.length
  · -- the focus path: transport through the velocity, sort and focus stages
    have hcell6 : ∀ (r : Row) (extra : List Val), r ∈ (pDf6 df0).rows →
        getCell ⟨r.label, r.cells ++ extra⟩ 0 = getCell r 0 := by
      intro r extra hr
      rw [getCell, getCell]
      refine List.getD_append _ _ _ 0 ?_
      rw [pDf6_align hnd hder hlen hn r hr]
      exact hlen6pos
    have hcell7 : ∀ r ∈ (pDf7 df0).1.rows, ∃ r6 ∈ (pDf6 df0).rows,
        r.label = r6.label ∧ getCell r 0 = getCell r6 0 := by
      intro r hr
      obtain ⟨r6, hr6, rfl⟩ := pDf7_row_shape hnd hder hlen h8 r hr
      exact ⟨r6, hr6, rfl, hcell6 r6 _ hr6⟩
    have hP7 : (pDf7 df0).1.rows.Pairwise
        (fun a b => dedupEq (getCell a 0) (getCell b 0) = false) := by
      rw [pDf7_vel_eq hnd hder hlen h8]
      refine List.pairwise_map.mpr (hP6.imp_of_mem ?_)
      intro a b ha hb hR
      rw [hcell6 a _ ha, hcell6 b _ hb]
      exact hR
    have hP8 : (pDf8 f df0).rows.Pairwise
        (fun a b => dedupEq (getCell a 0) (getCell b 0) = false) :=
      ((pDf8_rows_perm hf df0).pairwise_iff
        (fun h => dedupEq_false_symm h)).mpr hP7
    constructor
    · have hP8b : (pDf8 f df0).rows.Pairwise
          (fun a b => (fun x y => dedupEq x y = false) (getCell a 0) (getCell b 0)) := hP8
      exact pairwise_final_of_pairwise_df8 (R := fun x y => dedupEq x y = false)
        (i := 0) hf hnd hder hlen h8 (by omega) hP8b
    · intro row hrow
      obtain ⟨r8, hr8, c, fv, rfl⟩ := pDf9_row_shape hf hnd hder hlen h8 row hrow
      have hr7 : r8 ∈ (pDf7 df0).1.rows := (pDf8_rows_perm hf df0).subset hr8
      obtain ⟨r6, hr6, hlab, hcel⟩ := hcell7 r8 hr7
      have hcellrow : getCell (⟨r8.label, r8.cells ++ [c, fv]⟩ : Row) 0 = getCell r8 0 := by
        rw [getCell, getCell]
        refine List.getD_append _ _ _ _ ?_
        have := pDf8_align hf hnd hder hlen h8 r8 hr8
        rw [pDf8_cols, pDf7_vel_eq hnd hder hlen h8] at this
        rw [this]
        simp only [List.length_append, List.length_cons, List.length_nil]
        omega
      refine ⟨r6, ?_, by rw [hlab]⟩
      rw [hcellrow, hcel]
      exact hfind6 r6 hr6
  · -- the skip path: the final frame is the dedup-stage frame itself
    have hskip : pDf9 f df0 = pDf6 df0 := pDf9_eq_skip hnd hder hlen hn (by omega)
    rw [hskip]
    exact ⟨hP6, fun row hrow => ⟨row, hfind6 row hrow, rfl⟩⟩

unseal Rat.add Rat.mul Rat.sub Rat.inv in
theorem c7_dedup_unique_first_witness :
    ((resFrame (process insort exNan)).rows.Pairwise
      (fun a b => dedupEq (getCell a 0) (getCell b 0) = false)) ∧
    (∀ row ∈ (resFrame (process insort exNan)).rows,
      ∃ r5, (pDf5 exNan).rows.find?
          (fun x => dedupEq (getCell x 0) (getCell row 0)) = some r5 ∧
        r5.label = row.label) :=
  c7_dedup_unique_first insort insort_conforming exNan
    (by decide) (by decide) (by decide) (by decide)

theorem map_fst_label_zip (l : List Row) (v : List Val) (h : l.length ≤ v.length) :
    (l.zip v).map (fun q => q.1.label) = l.map Row.label := by
  have hcomp : (fun (q : Row × Val) => q.1.label) = Row.label ∘ Prod.fst := rfl
  rw [hcomp, ← List.map_map, List.map_fst_zip _ _ h]

/-- C8 (confirmed): every output row's `Focus_SKU` cell is the boolean
OR of the two independent criteria evaluated on that same row: its
`Total_Quantity_Values` cell is at least 200, or its
`Cumulative_Percentage` cell (the running velocity sum in output order)
is at most 80.  In particular a row with total quantity >= 200 is always
a focus row.  (The two `.loc` label-set assignments of source lines
108-109 amount to this pointwise OR because row labels are unique.) -/
theorem c8_focus_or (f : (Row → Val) → List Row → List Row)
    (hf : SortConforming f) (df0 : DFrame)
    (hnd : df0.cols.Nodup) (hder : ∀ c ∈ df0.cols, c ∉ derivedNames)
    (hlen : ∀ r ∈ df0.rows, r.cells.length = df0.cols.length)
    (hlab : (df0.rows.map Row.label).Nodup)
    (h8 : 8 ≤ df0.cols.length) :
    ∀ row ∈ (resFrame (process f df0)).rows,
      getCell row (colIdx (resFrame (process f df0)) focusName) =
        .bool (vge (getCell row (colIdx (resFrame (process f df0)) tqvName)) 200 ||
               vle (getCell row (colIdx (resFrame (process f df0)) cumName)) 80) := by
  have hn : 5 ≤ df0.cols.length := by omega
  rw [process_ok f hn]
  simp only [resFrame]
  have hcum8 := cum_not_mem_pDf8_cols (f := f) hnd hder hlen h8
  have hfoc8 := focus_not_mem_pDf8_cols (f := f) hnd hder hlen h8
  have halign8 := pDf8_align hf hnd hder hlen h8
  have htqv8 : tqvName ∈ (pDf8 f df0).cols :=
    pDf8_cols ▸ tqv_mem_pDf7_cols hnd hder hlen h8
  have hnodup8 := pDf8_labels_nodup hf hnd hder hlen hlab h8
  rw [pDf9_eq_focus hnd hder hlen h8, focusStage_eq _ hcum8 hfoc8 halign8]
  simp only [colIdx]
  rw [colPos_append_of_mem htqv8, colPos_append_absent hcum8, colPos_append_absent hfoc8]
  rw [show colPos [cumName, focusName] cumName = 0 from by decide,
    show colPos [cumName, focusName] focusName = 1 from by decide]
  intro row hrow
  obtain ⟨p, hp, rfl⟩ := List.mem_map.mp hrow
  have hp1 : p.1 ∈ (pDf8 f df0).rows := (List.of_mem_zip hp).1
  have hp1len : p.1.cells.length = (pDf8 f df0).cols.length := halign8 p.1 hp1
  have hlenc : (pDf8 f df0).rows.length ≤ (cumsumVals ((pDf8 f df0).rows.map
      (fun r => getCell r (colPos (pDf8 f df0).cols velName)))).length := by
    rw [cumsumVals, cumsumGo_length, List.length_map]
  have hziplab : (((pDf8 f df0).rows.zip (cumsumVals ((pDf8 f df0).rows.map
      (fun r => getCell r (colPos (pDf8 f df0).cols velName))))).map
      (fun q => q.1.label)).Nodup := by
    rw [map_fst_label_zip _ _ hlenc]
    exact hnodup8
  have hhigh : p.1.label ∈ (((pDf8 f df0).rows.filter
      (fun r => vge (getCell r (colPos (pDf8 f df0).cols tqvName)) 200)).map Row.label) ↔
      vge (getCell p.1 (colPos (pDf8 f df0).cols tqvName)) 200 = true :=
    mem_filter_map_of_nodup hnodup8 hp1
  have hvol : p.1.label ∈ ((((pDf8 f df0).rows.zip (cumsumVals ((pDf8 f df0).rows.map
      (fun r => getCell r (colPos (pDf8 f df0).cols velName))))).filter
      (fun q => vle q.2 80)).map (fun q => q.1.label)) ↔ vle p.2 80 = true :=
    mem_filter_map_of_nodup hziplab hp
  have hgetfocus : ∀ (v : Val), getCell ⟨p.1.label, p.1.cells ++ [p.2, v]⟩
      ((pDf8 f df0).cols.length + 1) = v := by
    intro v
    rw [getCell]
    show (p.1.cells ++ [p.2, v]).getD ((pDf8 f df0).cols.length + 1) .nan = v
    rw [List.getD_append_right _ _ _ _ (by omega), ← hp1len]
    simp
  have hgetcum : ∀ (v : Val), getCell ⟨p.1.label, p.1.cells ++ [p.2, v]⟩
      ((pDf8 f df0).cols.length + 0) = p.2 := by
    intro v
    rw [getCell]
    show (p.1.cells ++ [p.2, v]).getD ((pDf8 f df0).cols.length + 0) .nan = p.2
    rw [List.getD_append_right _ _ _ _ (by omega), ← hp1len]
    simp
  have hgettqv : ∀ (v : Val), getCell ⟨p.1.label, p.1.cells ++ [p.2, v]⟩
      (colPos (pDf8 f df0).cols tqvName) =
      getCell p.1 (colPos (pDf8 f df0).cols tqvName) := by
    intro v
    rw [getCell, getCell]
    refine List.getD_append _ _ _ _ ?_
    rw [hp1len]
    exact colPos_lt_of_mem htqv8
  by_cases hcnd : (p.1.label ∈ (((pDf8 f df0).rows.filter
      (fun r => vge (getCell r (colPos (pDf8 f df0).cols tqvName)) 200)).map Row.label) ∨
      p.1.label ∈ ((((pDf8 f df0).rows.zip (cumsumVals ((pDf8 f df0).rows.map
      (fun r => getCell r (colPos (pDf8 f df0).cols velName))))).filter
      (fun q => vle q.2 80)).map (fun q => q.1.label)))
  · rw [if_pos hcnd, hgetfocus, hgetcum, hgettqv]
    rcases hcnd with hc | hc
    · rw [hhigh.mp hc]
      rfl
    · rw [hvol.mp hc]
      simp
  · rw [if_neg hcnd, hgetfocus, hgetcum, hgettqv]
    push_neg at hcnd
    have h1 : vge (getCell p.1 (colPos (pDf8 f df0).cols tqvName)) 200 = false := by
      cases hv : vge (getCell p.1 (colPos (pDf8 f df0).cols tqvName)) 200
      · rfl
      · exact absurd (hhigh.mpr hv) hcnd.1
    have h2 : vle p.2 80 = false := by
      cases hv : vle p.2 80
      · rfl
      · exact absurd (hvol.mpr hv) hcnd.2
    rw [h1, h2]
    rfl

unseal Rat.add Rat.mul Rat.sub Rat.inv in
theorem c8_focus_or_witness :
    getCell ((resFrame (process insort ex9)).rows.getD 0 ⟨0, []⟩)
        (colIdx (resFrame (process insort ex9)) focusName) =
      .bool (vge (getCell ((resFrame (process insort ex9)).rows.getD 0 ⟨0, []⟩)
            (colIdx (resFrame (process insort ex9)) tqvName)) 200 ||
          vle (getCell ((resFrame (process insort ex9)).rows.getD 0 ⟨0, []⟩)
            (colIdx (resFrame (process insort ex9)) cumName)) 80) :=
  c8_focus_or insort insort_conforming ex9
    (by decide) (by decide) (by decide) (by decide) (by decide)
    ((resFrame (process insort ex9)).rows.getD 0 ⟨0, []⟩)
    (getD_mem (by decide) _)

set_option maxHeartbeats 4000000 in
/-- C9 (confirmed): if every velocity in the output is a non-negative
finite number, the `Cumulative_Percentage` column is non-decreasing
along the output order (it is the running sum of the velocity column in
that order, source line 103). -/
theorem c9_cumulative_monotone (f : (Row → Val) → List Row → List Row)
    (hf : SortConforming f) (df0 : DFrame)
    (hnd : df0.cols.Nodup) (hder : ∀ c ∈ df0.cols, c ∉ derivedNames)
    (hlen : ∀ r ∈ df0.rows, r.cells.length = df0.cols.length)
    (h8 : 8 ≤ df0.cols.length)
    (hvelpos : ∀ v ∈ colVals (resFrame (process f df0)) velName,
      ∃ q : ℚ, v = .num q ∧ 0 ≤ q) :
    List.Chain' (fun x y => ∃ p q : ℚ, x = .num p ∧ y = .num q ∧ p ≤ q)
      (colVals (resFrame (process f df0)) cumName) := by
  have hn : 5 ≤ df0.cols.length := by omega
  rw [process_ok f hn] at hvelpos ⊢
  simp only [resFrame] at hvelpos ⊢
  have hcum8 := cum_not_mem_pDf8_cols (f := f) hnd hder hlen h8
  have hfoc8 := focus_not_mem_pDf8_cols (f := f) hnd hder hlen h8
  have halign8 := pDf8_align hf hnd hder hlen h8
  have hvel8 : velName ∈ (pDf8 f df0).cols :=
    pDf8_cols ▸ vel_mem_pDf7_cols hnd hder hlen h8
  rw [pDf9_eq_focus hnd hder hlen h8, focusStage_eq _ hcum8 hfoc8 halign8]
    at hvelpos ⊢
  simp only [colVals, colIdx] at hvelpos ⊢
  rw [colPos_append_of_mem hvel8] at hvelpos
  rw [colPos_append_absent hcum8,
    show colPos [cumName, focusName] cumName = 0 from by decide]
  rw [List.map_map]
  rw [List.map_map] at hvelpos
  simp only [Function.comp_def]
  have hlenc : (cumsumVals ((pDf8 f df0).rows.map
      (fun r => getCell r (colPos (pDf8 f df0).cols velName)))).length =
      (pDf8 f df0).rows.length := by
    rw [cumsumVals, cumsumGo_length, List.length_map]
  -- the composed cum-cell extraction is the second zip component
  have hcumcol : ∀ p ∈ ((pDf8 f df0).rows.zip (cumsumVals ((pDf8 f df0).rows.map
      (fun r => getCell r (colPos (pDf8 f df0).cols velName))))),
      ∀ (v : Val), getCell ⟨p.1.label, p.1.cells ++ [p.2, v]⟩
        ((pDf8 f df0).cols.length + 0) = p.2 := by
    intro p hp v
    rw [getCell]
    show (p.1.cells ++ [p.2, v]).getD ((pDf8 f df0).cols.length + 0) .nan = p.2
    rw [List.getD_append_right _ _ _ _
      (by rw [halign8 p.1 (List.of_mem_zip hp).1]; omega),
      halign8 p.1 (List.of_mem_zip hp).1]
    simp
  -- the composed velocity-cell extraction is the first component's cell
  have hvelcol : ∀ p ∈ ((pDf8 f df0).rows.zip (cumsumVals ((pDf8 f df0).rows.map
      (fun r => getCell r (colPos (pDf8 f df0).cols velName))))),
      ∀ (v : Val), getCell ⟨p.1.label, p.1.cells ++ [p.2, v]⟩
        (colPos (pDf8 f df0).cols velName) = getCell p.1 (colPos (pDf8 f df0).cols velName) := by
    intro p hp v
    rw [getCell, getCell]
    refine List.getD_append _ _ _ _ ?_
    rw [halign8 p.1 (List.of_mem_zip hp).1]
    exact colPos_lt_of_mem hvel8
  -- rewrite the goal to a statement about the running-sum list itself
  have hgoal : (((pDf8 f df0).rows.zip (cumsumVals ((pDf8 f df0).rows.map
      (fun r => getCell r (colPos (pDf8 f df0).cols velName))))).map
        (fun p => getCell ⟨p.1.label, p.1.cells ++ [p.2,
          if p.1.label ∈ (((pDf8 f df0).rows.filter
              (fun r => vge (getCell r (colPos (pDf8 f df0).cols tqvName)) 200)).map Row.label) ∨
             p.1.label ∈ ((((pDf8 f df0).rows.zip (cumsumVals ((pDf8 f df0).rows.map
              (fun r => getCell r (colPos (pDf8 f df0).cols velName))))).filter
              (fun q => vle q.2 80)).map (fun q => q.1.label))
          then Val.bool true else Val.bool false]⟩ ((pDf8 f df0).cols.length + 0))) =
      cumsumVals ((pDf8 f df0).rows.map
        (fun r => getCell r (colPos (pDf8 f df0).cols velName))) := by
    refine Eq.trans (List.map_congr_left (fun p hp => hcumcol p hp _)) ?_
    show List.map Prod.snd _ = _
    exact List.map_snd_zip _ _ (le_of_eq hlenc)
  -- transport the non-negativity hypothesis to the sorted frame's column
  have hvel8pos : ∀ v ∈ (pDf8 f df0).rows.map
      (fun r => getCell r (colPos (pDf8 f df0).cols velName)),
      ∃ q : ℚ, v = .num q ∧ 0 ≤ q := by
    intro v hv
    obtain ⟨r, hr, rfl⟩ := List.mem_map.mp hv
    have hrmem : r ∈ (((pDf8 f df0).rows.zip (cumsumVals ((pDf8 f df0).rows.map
        (fun r => getCell r (colPos (pDf8 f df0).cols velName))))).map Prod.fst) := by
      rw [List.map_fst_zip _ _ (ge_of_eq hlenc)]
      exact hr
    obtain ⟨p, hp, hpr⟩ := List.mem_map.mp hrmem
    refine hvelpos (getCell r (colPos (pDf8 f df0).cols velName))
      (List.mem_map.mpr ⟨p, hp, ?_⟩)
    exact (hvelcol p hp _).trans (by rw [hpr])
  rw [hgoal]
  have hchain := cumsum_chain 0 ((pDf8 f df0).rows.map
    (fun r => getCell r (colPos (pDf8 f df0).cols velName))) hvel8pos
  exact hchain.tail

theorem getD_set_self {α} : ∀ (l : List α) (i : ℕ), i < l.length → ∀ (v d : α),
    (l.set i v).getD i d = v := by
  intro l
  induction l with
  | nil => intro i hi; simp at hi
  | cons a l ih =>
    intro i hi v d
    cases i with
    | zero => rfl
    | succ i =>
      show (a :: l.set i v).getD (i + 1) d = v
      rw [List.getD_cons_succ]
      exact ih i (by simpa using hi) v d

/-- C10 (confirmed): for a row `r` whose SKU cell (position 0) is `NaN`,
(i) the SUMIF column assigns `r` the value `0` (NaN compares `==`-unequal
to every SKU, so `r`'s group filter is empty); (ii) `r`'s quantity is
excluded from every SKU group's sum: replacing it by any other value
leaves the whole SUMIF column unchanged; (iii) `r`'s quantity *is*
included in the stored total quantity: replacing it changes the total by
exactly the difference; and (iv) the cleaner drops `r` (its label is
absent from the frame after `dropna`). -/
theorem c10_nan_sku (df0 : DFrame)
    (hnd : df0.cols.Nodup) (hder : ∀ c ∈ df0.cols, c ∉ derivedNames)
    (hlen : ∀ x ∈ df0.rows, x.cells.length = df0.cols.length)
    (hlab : (df0.rows.map Row.label).Nodup)
    (hn : 5 ≤ df0.cols.length)
    (pre post : List Row) (r : Row) (hrows : df0.rows = pre ++ r :: post)
    (hnan : getCell r 0 = .nan)
    (q q' : ℚ) (hq : getCell r 4 = .num q)
    (hquant : ∀ x ∈ df0.rows, ∃ p : ℚ, getCell x 4 = .num p) :
    (sumifVals df0 (pSku df0) (pQty df0)).getD pre.length .nan = .num 0 ∧
    sumifVals ⟨df0.cols, pre ++ setCellAt r 4 (.num q') :: post⟩ (pSku df0) (pQty df0)
      = sumifVals df0 (pSku df0) (pQty df0) ∧
    (∃ t : ℚ, pTotal df0 = .num (t + q) ∧
      pTotal ⟨df0.cols, pre ++ setCellAt r 4 (.num q') :: post⟩ = .num (t + q')) ∧
    r.label ∉ (pDf4 df0).rows.map Row.label := by
  have h0 : 0 < df0.cols.length := by omega
  have h4 : 4 < df0.cols.length := by omega
  have hs0p : colPos df0.cols (pSku df0) = 0 := by
    rw [pSku]; exact colPos_getD hnd h0 ""
  have hq4p : colPos df0.cols (pQty df0) = 4 := by
    rw [pQty]; exact colPos_getD hnd h4 ""
  have hrmem : r ∈ df0.rows := by
    rw [hrows]; exact List.mem_append_right _ (List.mem_cons_self _ _)
  have hrlen : r.cells.length = df0.cols.length := hlen r hrmem
  have hr'0 : getCell (setCellAt r 4 (.num q')) 0 = .nan := by
    show (r.cells.set 4 (Val.num q')).getD 0 .nan = .nan
    rw [getD_set_ne r.cells 4 0 (by omega)]
    exact hnan
  have hr'4 : getCell (setCellAt r 4 (.num q')) 4 = .num q' := by
    show (r.cells.set 4 (Val.num q')).getD 4 .nan = .num q'
    exact getD_set_self r.cells 4 (by omega) _ _
  -- (ii) core: the group filters never select the NaN-SKU row, in either
  -- the original or the quantity-modified frame
  have hfilt : ∀ (c : Val),
      (pre ++ setCellAt r 4 (.num q') :: post).filter (fun y => valEq (getCell y 0) c)
    = (pre ++ r :: post).filter (fun y => valEq (getCell y 0) c) := by
    intro c
    rw [List.filter_append, List.filter_append,
      List.filter_cons_of_neg (by simp [hr'0, valEq_nan_left]),
      List.filter_cons_of_neg (by simp [hnan, valEq_nan_left])]
  have hrow : ∀ x : Row,
      sumifRow ⟨df0.cols, pre ++ setCellAt r 4 (.num q') :: post⟩ (pSku df0) (pQty df0) x
    = sumifRow df0 (pSku df0) (pQty df0) x := by
    intro x
    simp only [sumifRow, colIdx]
    rw [hs0p, hq4p, hrows, hfilt (getCell x 0)]
  have hmid : sumifRow df0 (pSku df0) (pQty df0) (setCellAt r 4 (.num q'))
      = sumifRow df0 (pSku df0) (pQty df0) r := by
    simp only [sumifRow, colIdx]
    rw [hs0p, hr'0, hnan]
  refine ⟨?_, ?_, ?_, ?_⟩
  · -- (i) the SUMIF entry for `r` is 0
    rw [sumifVals, hrows, List.map_append, List.map_cons,
      List.getD_append_right _ _ _ _ (by simp)]
    simp only [List.length_map, Nat.sub_self]
    rw [List.getD_cons_zero]
    simp only [sumifRow, colIdx]
    rw [hs0p, hnan,
      List.filter_eq_nil_iff.mpr (fun y _ => by simp [valEq_nan_right])]
    rfl
  · -- (ii) the whole SUMIF column ignores `r`'s quantity
    simp only [sumifVals]
    rw [hrows]
    refine Eq.trans (List.map_congr_left (fun x _ => hrow x)) ?_
    rw [List.map_append, List.map_append, List.map_cons, List.map_cons, hmid]
  · -- (iii) the stored total does include `r`'s quantity
    have hlen' : ∀ x ∈ (⟨df0.cols, pre ++ setCellAt r 4 (.num q') :: post⟩ : DFrame).rows,
        x.cells.length = df0.cols.length := by
      intro x hx
      rcases List.mem_append.mp hx with hx | hx
      · exact hlen x (by rw [hrows]; exact List.mem_append_left _ hx)
      · rcases List.mem_cons.mp hx with rfl | hx
        · show (r.cells.set 4 (Val.num q')).length = df0.cols.length
          rw [List.length_set]; exact hrlen
        · exact hlen x (by
            rw [hrows]; exact List.mem_append_right _ (List.mem_cons_of_mem _ hx))
    have hTot : pTotal df0 = vsum (df0.rows.map (fun x => getCell x 4)) :=
      pTotal_eq hnd hder hlen hn
    have hTot' : pTotal ⟨df0.cols, pre ++ setCellAt r 4 (.num q') :: post⟩
        = vsum ((pre ++ setCellAt r 4 (.num q') :: post).map (fun x => getCell x 4)) :=
      pTotal_eq hnd hder hlen' hn
    obtain ⟨sA, hsA⟩ := vsum_go_num (pre.map (fun x => getCell x 4)) (by
      intro v hv
      obtain ⟨x, hx, rfl⟩ := List.mem_map.mp hv
      obtain ⟨p, hp⟩ := hquant x (by rw [hrows]; exact List.mem_append_left _ hx)
      exact Or.inl ⟨p, hp⟩)
    obtain ⟨sB, hsB⟩ := vsum_go_num (post.map (fun x => getCell x 4)) (by
      intro v hv
      obtain ⟨x, hx, rfl⟩ := List.mem_map.mp hv
      obtain ⟨p, hp⟩ := hquant x (by
        rw [hrows]; exact List.mem_append_right _ (List.mem_cons_of_mem _ hx))
      exact Or.inl ⟨p, hp⟩)
    refine ⟨sA + sB, ?_, ?_⟩
    · rw [hTot, hrows, List.map_append, List.map_cons, hq, vsum,
        List.foldl_append, hsA 0, List.foldl_cons]
      show (post.map (fun x => getCell x 4)).foldl
          (fun acc v => if v.isNan then acc else vadd acc v) (.num ((0 + sA) + q))
        = .num (sA + sB + q)
      rw [hsB]
      exact congrArg Val.num (by ring)
    · rw [hTot', List.map_append, List.map_cons, hr'4, vsum,
        List.foldl_append, hsA 0, List.foldl_cons]
      show (post.map (fun x => getCell x 4)).foldl
          (fun acc v => if v.isNan then acc else vadd acc v) (.num ((0 + sA) + q'))
        = .num (sA + sB + q')
      rw [hsB]
      exact congrArg Val.num (by ring)
  · -- (iv) the cleaner drops the row
    rw [pDf4_eq hnd hder hlen hn]
    show r.label ∉ ((df0.rows.filter (fun x => !(getCell x 0).isNan)).map
      (fun x => (⟨x.label, x.cells ++ [sumifRow df0 (pSku df0) (pQty df0) x,
        sumifRow df0 (pSku df0) (pQty df0) x]⟩ : Row))).map Row.label
    intro hmem
    rw [List.map_map] at hmem
    simp only [Function.comp_def] at hmem
    obtain ⟨x, hx, hlx⟩ := List.mem_map.mp hmem
    have hxmem : x ∈ df0.rows := (List.mem_filter.mp hx).1
    have hxpred := (List.mem_filter.mp hx).2
    have hxr : x = r := List.inj_on_of_nodup_map hlab hxmem hrmem hlx
    rw [hxr, hnan] at hxpred
    simp [Val.isNan] at hxpred

theorem c10_nan_sku_witness :
    (sumifVals exNan (pSku exNan) (pQty exNan)).getD 1 .nan = .num 0 ∧
    sumifVals ⟨exNan.cols,
        [⟨0, [.num 1, .num 0, .num 0, .num 0, .num 10, .num 0, .num 5, .num 0, .num 20]⟩] ++
          setCellAt ⟨1, [.nan, .num 0, .num 0, .num 0, .num 7, .num 0, .num 6, .num 0, .num 30]⟩
            4 (.num 5) ::
          [⟨2, [.num 1, .num 0, .num 0, .num 0, .num 5, .num 0, .num 8, .num 0, .num 40]⟩]⟩
        (pSku exNan) (pQty exNan)
      = sumifVals exNan (pSku exNan) (pQty exNan) ∧
    (∃ t : ℚ, pTotal exNan = .num (t + 7) ∧
      pTotal ⟨exNan.cols,
        [⟨0, [.num 1, .num 0, .num 0, .num 0, .num 10, .num 0, .num 5, .num 0, .num 20]⟩] ++
          setCellAt ⟨1, [.nan, .num 0, .num 0, .num 0, .num 7, .num 0, .num 6, .num 0, .num 30]⟩
            4 (.num 5) ::
          [⟨2, [.num 1, .num 0, .num 0, .num 0, .num 5, .num 0, .num 8, .num 0, .num 40]⟩]⟩
        = .num (t + 5)) ∧
    (1 : ℕ) ∉ (pDf4 exNan).rows.map Row.label :=
  c10_nan_sku exNan (by decide) (by decide) (by decide) (by decide) (by decide)
    [⟨0, [.num 1, .num 0, .num 0, .num 0, .num 10, .num 0, .num 5, .num 0, .num 20]⟩]
    [⟨2, [.num 1, .num 0, .num 0, .num 0, .num 5, .num 0, .num 8, .num 0, .num 40]⟩]
    ⟨1, [.nan, .num 0, .num 0, .num 0, .num 7, .num 0, .num 6, .num 0, .num 30]⟩
    rfl rfl 7 5 rfl
    (by
      intro x hx
      rcases List.mem_cons.mp hx with rfl | hx
      · exact ⟨10, rfl⟩
      · rcases List.mem_cons.mp hx with rfl | hx
        · exact ⟨7, rfl⟩
        · rcases List.mem_cons.mp hx with rfl | hx
          · exact ⟨5, rfl⟩
          · cases hx)

unseal Rat.add Rat.mul Rat.sub Rat.inv in
theorem c9_cumulative_monotone_witness :
    List.Chain' (fun x y => ∃ p q : ℚ, x = .num p ∧ y = .num q ∧ p ≤ q)
      (colVals (resFrame (process insort ex9)) cumName) :=
  c9_cumulative_monotone insort insort_conforming ex9
    (by decide) (by decide) (by decide) (by decide)
    (by
      intro v hv
      have hcol : colVals (resFrame (process insort ex9)) velName = [.num 50, .num 25] := by
        decide
      rw [hcol] at hv
      rcases List.mem_cons.mp hv with rfl | hv
      · exact ⟨50, rfl, by norm_num⟩
      · rcases List.mem_cons.mp hv with rfl | hv
        · exact ⟨25, rfl, by norm_num⟩
        · cases hv)

end CleanupIPP
